import Mathlib

/-!
# Agente de texto predictivo: embedding of `Modelo/app_2.js`

A shallow embedding of the suggestion engine, the accept-suggestion transaction and
the metrics model of `app_2.js`.

Conventions of the embedding:

* a JavaScript string is a `List Char` (`Texto`); the texts are taken to be well-formed
  Unicode, so a code point outside the Basic Multilingual Plane stands for its two
  UTF-16 code units (`longitud` counts them as two);
* a JavaScript number is an exact rational (`ℚ`): the rounding of binary64 arithmetic
  is not part of the embedding, so a value that the program rounds at a tie (such as
  `23 / 80 * 100 * 10`, which is `287.49999999999994` in binary64 and `287.5` here) can
  differ from the stored one in its last decimal; ranges and orders are unaffected;
* `undefined` is `none`;
* `Math.random()` is an explicit stream of draws `azar : Nat → ℚ`;
* the DOM (the editor, the suggestion cards, the notifications) is left out: only
  `estadoApp` is tracked.
-/

namespace AgenteTexto

/-- A JavaScript string, as the list of its characters. -/
abbrev Texto := List Char

/-! ## Platform functions used by the program -/

/-- The characters that `String.prototype.trim` strips and that `\s` matches:
ECMAScript WhiteSpace and LineTerminator. -/
def esEspacio (c : Char) : Bool :=
  let n := c.toNat
  n == 0x09 || n == 0x0A || n == 0x0B || n == 0x0C || n == 0x0D || n == 0x20 ||
  n == 0xA0 || n == 0x1680 || (0x2000 ≤ n && n ≤ 0x200A) || n == 0x2028 ||
  n == 0x2029 || n == 0x202F || n == 0x205F || n == 0x3000 || n == 0xFEFF

/-- `String.prototype.trim`: strips white space at both ends. -/
def trim (t : Texto) : Texto :=
  ((t.dropWhile esEspacio).reverse.dropWhile esEspacio).reverse

/-- Lower-case mapping of one character, as `String.prototype.toLowerCase` maps it on the
Basic Latin and Latin-1 Supplement blocks (the alphabet of the program's texts and
tables); a character outside these blocks is left as it is. -/
def aMinuscula (c : Char) : Char :=
  let n := c.toNat
  if (0x41 ≤ n && n ≤ 0x5A) || (0xC0 ≤ n && n ≤ 0xDE && n != 0xD7) then Char.ofNat (n + 32)
  else c

/-- `String.prototype.toLowerCase`, character by character. -/
def toLowerCase (t : Texto) : Texto := t.map aMinuscula

/-- Loop of `split(/\s+/)`: `enBlanco` says that the scan is inside a run of white space,
`actual` is the piece being read, reversed. -/
def splitAux : Bool → Texto → Texto → List Texto
  | _, actual, [] => [actual.reverse]
  | true, actual, c :: cs =>
      if esEspacio c then splitAux true actual cs else splitAux false (c :: actual) cs
  | false, actual, c :: cs =>
      if esEspacio c then actual.reverse :: splitAux true [] cs
      else splitAux false (c :: actual) cs

/-- `texto.split(/\s+/)`: the pieces between maximal runs of white space; white space at
the start gives a first piece `""`, white space at the end a last piece `""`, and the
empty text gives `[""]`. -/
def split (t : Texto) : List Texto := splitAux false [] t

/-- `arr.slice(-n)`: the last `n` elements (all of them when there are fewer). -/
def sliceUltimos {α : Type} (n : Nat) (l : List α) : List α := l.drop (l.length - n)

/-- `arr.join(' ')`. -/
def join (l : List Texto) : Texto := List.intercalate [' '] l

/-- `texto.includes(parte)`: `parte` occurs in `texto` as a contiguous run. -/
def includes : Texto → Texto → Bool
  | [], parte => parte.isEmpty
  | c :: cs, parte => parte.isPrefixOf (c :: cs) || includes cs parte

/-- `texto.length`: the number of UTF-16 code units. -/
def longitud (t : Texto) : Nat := (t.map (fun c => if c.toNat < 0x10000 then 1 else 2)).sum

/-- `Math.round`: the nearest integer, halves rounded up. -/
def mathRound (x : ℚ) : ℤ := ⌊x + 1 / 2⌋

/-! ## Data model -/

/-- The values of `tipo` that the program writes. -/
inductive Tipo
  | correccion
  | prediccion
  | completado
  | colombianismo
  deriving DecidableEq, Repr

/-- The values of the context selector. -/
inductive Contexto
  | general
  | informal
  | formal
  | academico
  deriving DecidableEq, Repr

/-- An entry of a table of `AGENTE_DATA`: `{ texto, confianza, tipo }`. -/
structure Entrada where
  texto : Texto
  confianza : ℚ
  tipo : Tipo
  deriving DecidableEq

/-- A suggestion object. A field is `none` when the object has no such property
(reading it gives `undefined`). -/
structure Sugerencia where
  texto : Option Texto
  confianza : Option ℚ
  tipo : Option Tipo
  palabraOriginal : Option Texto
  icono : Option Texto
  deriving DecidableEq

/-- The record `estadoApp.metricas`. -/
structure Metricas where
  precision : ℚ
  latencia : ℚ
  kss : ℚ
  acceptance : ℚ
  deriving DecidableEq

/-- The record `estadoApp.estadisticas`; `tiempoInicio` is a time stamp. -/
structure Estadisticas where
  palabrasEscritas : Nat
  sugerenciasAceptadas : Nat
  tiempoInicio : Nat
  deriving DecidableEq

/-- The record `estadoApp`. -/
structure EstadoApp where
  contextoActual : Contexto
  textoActual : Texto
  sugerenciasActivas : List Sugerencia
  metricas : Metricas
  autoSugerenciasActivo : Bool
  ultimaPosicionCursor : Nat
  estadisticas : Estadisticas
  deriving DecidableEq

/-! ## Knowledge base `AGENTE_DATA` -/

/-- The table `AGENTE_DATA.colombianismos.informal`. -/
def colombianismosInformal : List Texto :=
  ["bacano".toList, "chévere".toList, "parce".toList, "berraco".toList,
   "mamagallismo".toList, "parcero".toList, "rumba".toList, "chimba".toList]

/-- The own properties of `AGENTE_DATA.correcciones`, in source order. -/
def correcciones : List (Texto × Entrada) :=
  [("estas".toList, ⟨"estés".toList, 0.95, .correccion⟩),
   ("tambien".toList, ⟨"también".toList, 0.98, .correccion⟩),
   ("analisis".toList, ⟨"análisis".toList, 0.92, .correccion⟩),
   ("martinez".toList, ⟨"Martínez".toList, 0.89, .correccion⟩),
   ("camion".toList, ⟨"camión".toList, 0.87, .correccion⟩),
   ("como".toList, ⟨"cómo".toList, 0.91, .correccion⟩),
   ("que".toList, ⟨"qué".toList, 0.88, .correccion⟩),
   ("mas".toList, ⟨"más".toList, 0.94, .correccion⟩)]

/-- The keys of the misspelling table. -/
def clavesCorrecciones : List Texto := correcciones.map Prod.fst

/-- The property names that every object literal inherits from `Object.prototype`. Each
is bound to a function, `__proto__` to the prototype object: all are truthy and none has
an own enumerable property. -/
def propiedadesHeredadas : List Texto :=
  ["constructor".toList, "__proto__".toList, "hasOwnProperty".toList,
   "isPrototypeOf".toList, "propertyIsEnumerable".toList, "toLocaleString".toList,
   "toString".toList, "valueOf".toList, "__defineGetter__".toList,
   "__defineSetter__".toList, "__lookupGetter__".toList, "__lookupSetter__".toList]

/-- What the property read `AGENTE_DATA.correcciones[clave]` evaluates to. -/
inductive Propiedad
  | propia (e : Entrada)
  | heredada
  | indefinida
  deriving DecidableEq

/-- The property read `AGENTE_DATA.correcciones[clave]`: an own entry of the table, else
a property found along the prototype chain, else `undefined`. -/
def leerCorreccion (clave : Texto) : Propiedad :=
  match correcciones.lookup clave with
  | some e => .propia e
  | none => if clave ∈ propiedadesHeredadas then .heredada else .indefinida

/-- The table `AGENTE_DATA.predicciones_contextuales`; `general` has no entry. -/
def prediccionesContextuales : Contexto → Option (List Entrada)
  | .general => none
  | .informal => some [⟨"chévere".toList, 0.88, .prediccion⟩,
                       ⟨"bacano".toList, 0.82, .prediccion⟩,
                       ⟨"genial".toList, 0.75, .prediccion⟩]
  | .formal => some [⟨"cordialmente".toList, 0.91, .completado⟩,
                     ⟨"atentamente".toList, 0.87, .completado⟩]
  | .academico => some [⟨"investigación".toList, 0.84, .prediccion⟩,
                        ⟨"metodología".toList, 0.79, .prediccion⟩]

/-- The initial metrics `AGENTE_DATA.metricas`. -/
def metricasIniciales : Metricas := ⟨89, 143, 41, 81⟩

/-- The icons written on the suggestions. -/
def iconoCorreccion : Texto := "✓".toList

/-- The arrow icon of a prediction. -/
def iconoPrediccion : Texto := "→".toList

/-- The flag icon of a colombianismo. -/
def iconoColombia : Texto := "🇨🇴".toList

/-! ## Suggestion engine -/

/-- The object `{ ...valor, palabraOriginal: palabra, icono: '✓' }` built by
`verificarCorrecciones` from the truthy value read in the table: the spread copies the
three fields of an own entry and copies nothing from an inherited value. -/
def correccionDesde (valor : Propiedad) (palabra : Texto) : Option Sugerencia :=
  match valor with
  | .propia e =>
      some ⟨some e.texto, some e.confianza, some e.tipo, some palabra, some iconoCorreccion⟩
  | .heredada => some ⟨none, none, none, some palabra, some iconoCorreccion⟩
  | .indefinida => none

/-- The function `verificarCorrecciones(ultimaPalabra, palabraAnterior)`; `null` is
`none`. -/
def verificarCorrecciones (ultimaPalabra palabraAnterior : Texto) : Option Sugerencia :=
  match correccionDesde (leerCorreccion ultimaPalabra) ultimaPalabra with
  | some s => some s
  | none =>
      if palabraAnterior ≠ [] then correccionDesde (leerCorreccion palabraAnterior) palabraAnterior
      else none

/-- A table entry with its icon: `{ ...p, icono }`. -/
def conIcono (icono : Texto) (p : Entrada) : Sugerencia :=
  ⟨some p.texto, some p.confianza, some p.tipo, none, some icono⟩

/-- The two predictions pushed when the tail of the text includes `muy`. -/
def prediccionesMuy : List Sugerencia :=
  [⟨some "bueno".toList, some 0.78, some .prediccion, none, some iconoPrediccion⟩,
   ⟨some "interesante".toList, some 0.71, some .prediccion, none, some iconoPrediccion⟩]

/-- The two predictions pushed when the tail of the text includes `película estuvo`. -/
def prediccionesPelicula : List Sugerencia :=
  [⟨some "chévere".toList, some 0.85, some .prediccion, none, some iconoColombia⟩,
   ⟨some "bacana".toList, some 0.79, some .prediccion, none, some iconoColombia⟩]

/-- The function `generarPredicciones(palabras, contexto)`: the array `predicciones` is
threaded through the three conditional pushes and cut by `slice(0, 3)`. -/
def generarPredicciones (palabras : List Texto) (contexto : Contexto) : List Sugerencia :=
  let ultimasPalabras := toLowerCase (join (sliceUltimos 3 palabras))
  let predicciones : List Sugerencia := []
  let predicciones :=
    if contexto ≠ .general then
      match prediccionesContextuales contexto with
      | some prediccionesContexto => predicciones ++ prediccionesContexto.map (conIcono iconoPrediccion)
      | none => predicciones
    else predicciones
  let predicciones :=
    if includes ultimasPalabras "muy".toList then predicciones ++ prediccionesMuy
    else predicciones
  let predicciones :=
    if includes ultimasPalabras "película estuvo".toList then predicciones ++ prediccionesPelicula
    else predicciones
  predicciones.take 3

/-- The suggestion pushed when the tail of the text includes `hola`. -/
def colombianismoHola : Sugerencia :=
  ⟨some "parce".toList, some 0.73, some .colombianismo, none, some iconoColombia⟩

/-- The suggestion pushed for one word of the informal vocabulary, with the draw `r` of
`Math.random()`. -/
def colombianismoAleatorio (palabra : Texto) (r : ℚ) : Sugerencia :=
  ⟨some palabra, some (0.70 + r * 0.15), some .colombianismo, none, some iconoColombia⟩

/-- One turn of the `forEach` of `sugerirColombianismos`: takes the next draw and pushes
the suggestion. -/
def pasoColombianismo (estado : List Sugerencia × (Nat → ℚ)) (palabra : Texto) :
    List Sugerencia × (Nat → ℚ) :=
  (estado.1 ++ [colombianismoAleatorio palabra (estado.2 0)], fun n => estado.2 (n + 1))

/-- The function `sugerirColombianismos(palabras, contexto)`, with the stream of draws it
reads; it returns the suggestions and the draws left. -/
def sugerirColombianismos (palabras : List Texto) (contexto : Contexto) (azar : Nat → ℚ) :
    List Sugerencia × (Nat → ℚ) :=
  if contexto = .formal ∨ contexto = .academico then ([], azar)
  else
    let ultimasPalabras := toLowerCase (join (sliceUltimos 2 palabras))
    let colombianismos : List Sugerencia :=
      if includes ultimasPalabras "hola".toList then [colombianismoHola] else []
    if includes ultimasPalabras "muy".toList ∧ contexto = .informal then
      (colombianismosInformal.take 2).foldl pasoColombianismo (colombianismos, azar)
    else (colombianismos, azar)

/-! ## Ranking -/

/-- The comparator `(a, b) => b.confianza - a.confianza`. With a missing confidence the
difference is `NaN`, which `Array.prototype.sort` reads as `+0`. -/
def compararConfianza (a b : Sugerencia) : ℚ :=
  match b.confianza, a.confianza with
  | some y, some x => y - x
  | _, _ => 0

/-- Insertion of `a` in front of the first element it does not have to follow. -/
def insertarOrdenado (a : Sugerencia) : List Sugerencia → List Sugerencia
  | [] => [a]
  | b :: l => if compararConfianza a b ≤ 0 then a :: b :: l else b :: insertarOrdenado a l

/-- The call `sugerencias.sort((a, b) => b.confianza - a.confianza)`. ECMAScript fixes
the result of a sort with a consistent comparator: the stable sorted arrangement, which
is computed here by insertion from the right. -/
def sort (sugerencias : List Sugerencia) : List Sugerencia :=
  sugerencias.foldr insertarOrdenado []

/-- The function `mostrarSugerencias(sugerencias)` as it acts on `estadoApp`: the array
it sorts in place is the one `estadoApp.sugerenciasActivas` refers to, and for an empty
array `limpiarSugerencias` stores a new empty one. -/
def mostrarSugerencias (sugerencias : List Sugerencia) : List Sugerencia :=
  if sugerencias.isEmpty then [] else sort sugerencias

/-! ## Metrics model -/

/-- The closure `variacion`, with its draw: `-2 + Math.random() * 4`. -/
def variacion (r : ℚ) : ℚ := -2 + r * 4

/-- The expression `Math.round(x * 10) / 10`. -/
def redondearDecima (x : ℚ) : ℚ := (mathRound (x * 10) : ℚ) / 10

/-- The function `actualizarMetricasEnTiempoReal()`, from the previous metrics, the
counters and the stream of draws; the four draws are read in source order. The
arithmetic is exact: the binary64 rounding of the products and quotients is left out. -/
def actualizarMetricasEnTiempoReal (m : Metricas) (est : Estadisticas) (azar : Nat → ℚ) :
    Metricas × (Nat → ℚ) :=
  let precision := max 75 (min 95 (m.precision + variacion (azar 0)))
  let latencia := max 100 (min 200 (m.latencia + variacion (azar 1) * 5))
  let kss := max 30 (min 50 (m.kss + variacion (azar 2)))
  let acceptance := max 70 (min 90 (m.acceptance + variacion (azar 3)))
  let kss :=
    if est.palabrasEscritas > 0 then
      let tasaAceptacion : ℚ := (est.sugerenciasAceptadas : ℚ) / (est.palabrasEscritas : ℚ)
      (mathRound (tasaAceptacion * 100 * 10) : ℚ) / 10
    else kss
  (⟨redondearDecima precision, (mathRound latencia : ℚ), redondearDecima kss,
    redondearDecima acceptance⟩, fun n => azar (n + 4))

/-! ## Pipeline -/

/-- The function `limpiarSugerencias()` on `estadoApp`. -/
def limpiarSugerencias (e : EstadoApp) : EstadoApp := { e with sugerenciasActivas := [] }

/-- The element `arr[arr.length - 1]` of a non-empty array. -/
def ultimoDe (palabras : List Texto) : Texto := palabras.getLast?.getD []

/-- The function `procesarTextoParaSugerencias()`, from `estadoApp` and the stream of
draws. -/
def procesarTextoParaSugerencias (e : EstadoApp) (azar : Nat → ℚ) : EstadoApp × (Nat → ℚ) :=
  if (trim e.textoActual).isEmpty then (limpiarSugerencias e, azar)
  else
    let palabras := split (toLowerCase e.textoActual)
    let ultimaPalabra := ultimoDe palabras
    let palabraAnterior := if palabras.length > 1 then ultimoDe palabras.dropLast else []
    let sugerencias : List Sugerencia :=
      match verificarCorrecciones ultimaPalabra palabraAnterior with
      | some correccion => [correccion]
      | none => []
    let sugerencias := sugerencias ++ generarPredicciones palabras e.contextoActual
    let colombianismos := sugerirColombianismos palabras e.contextoActual azar
    let sugerencias := sugerencias ++ colombianismos.1
    let metricas := actualizarMetricasEnTiempoReal e.metricas e.estadisticas colombianismos.2
    ({ e with sugerenciasActivas := mostrarSugerencias sugerencias, metricas := metricas.1 },
      metricas.2)

/-! ## Accept-suggestion transaction -/

/-- The word characters of `\b` in a pattern without the `u` flag: `[A-Za-z0-9_]`. -/
def esPalabra (c : Char) : Bool :=
  let n := c.toNat
  (0x41 ≤ n && n ≤ 0x5A) || (0x61 ≤ n && n ≤ 0x7A) || (0x30 ≤ n && n ≤ 0x39) || n == 0x5F

/-- Whether a neighbour of a position is a word character; outside the text there is
none. -/
def esPalabraOpt : Option Char → Bool
  | some c => esPalabra c
  | none => false

/-- The assertion `\b` between the characters `antes` and `despues`. -/
def esLimite (antes despues : Option Char) : Bool :=
  esPalabraOpt antes != esPalabraOpt despues

/-- The canonical form under which the flag `i` (without `u`) compares two characters,
as a code unit: the upper-case mapping, kept only when it is one character and does not
turn a non-ASCII character into an ASCII one. It is given on Basic Latin and Latin-1
Supplement; no character outside them is sent into Basic Latin. -/
def canonicalizar (c : Char) : Nat :=
  let n := c.toNat
  if (0x61 ≤ n && n ≤ 0x7A) || (0xE0 ≤ n && n ≤ 0xFE && n != 0xF7) then n - 32
  else if n == 0xFF then 0x178
  else if n == 0xB5 then 0x39C
  else n

/-- The characters of a literal pattern match the first characters of the text, case
ignored. -/
def coincideLiteral : Texto → Texto → Bool
  | [], _ => true
  | _ :: _, [] => false
  | p :: ps, c :: cs => canonicalizar p == canonicalizar c && coincideLiteral ps cs

/-- The pattern `\b<patron>\b` with flag `i` matches at the position that has `antes`
before it and `resto` from it on; `patron` is a non-empty run of literal characters. -/
def coincideEn (patron : Texto) (antes : Option Char) (resto : Texto) : Bool :=
  esLimite antes resto.head? && coincideLiteral patron resto &&
    esLimite (resto.take patron.length).getLast? (resto.drop patron.length).head?

/-- The replacement text of one match (ECMAScript GetSubstitution for a pattern without
capture groups): `$$` is a dollar sign, `$&` the match, the dollar sign followed by a
backtick the text before the match, the dollar sign followed by an apostrophe the text
after it; every other character stands for itself. -/
def getSubstitution (coincidencia anterior posterior : Texto) : Texto → Texto
  | [] => []
  | [c] => [c]
  | c :: d :: resto =>
      if c = '$' then
        if d = '$' then '$' :: getSubstitution coincidencia anterior posterior resto
        else if d = '&' then coincidencia ++ getSubstitution coincidencia anterior posterior resto
        else if d = Char.ofNat 96 then anterior ++ getSubstitution coincidencia anterior posterior resto
        else if d = Char.ofNat 39 then posterior ++ getSubstitution coincidencia anterior posterior resto
        else c :: getSubstitution coincidencia anterior posterior (d :: resto)
      else c :: getSubstitution coincidencia anterior posterior (d :: resto)

/-- Scan of `texto.replace(/\b<patron>\b/gi, reemplazo)`: `saltar` counts the characters
of the last match still to be passed, `previo` is the text already passed, reversed. -/
def replaceAux (patron reemplazo : Texto) : Nat → Texto → Texto → Texto
  | _, _, [] => []
  | n + 1, previo, c :: cs => replaceAux patron reemplazo n (c :: previo) cs
  | 0, previo, c :: cs =>
      if coincideEn patron previo.head? (c :: cs) then
        getSubstitution ((c :: cs).take patron.length) previo.reverse
            ((c :: cs).drop patron.length) reemplazo ++
          replaceAux patron reemplazo (patron.length - 1) (c :: previo) cs
      else c :: replaceAux patron reemplazo 0 (c :: previo) cs

/-- The call `texto.replace(new RegExp("\\b" + patron + "\\b", "gi"), reemplazo)` for a
non-empty `patron` of literal characters: every match, from left to right and without
overlap, gives way to its replacement text. -/
def replace (patron reemplazo texto : Texto) : Texto :=
  replaceAux patron reemplazo 0 [] texto

/-- The conversion of a value to a string where the program concatenates it. -/
def comoCadena : Option Texto → Texto
  | some t => t
  | none => "undefined".toList

/-- The call `texto.lastIndexOf(' ')`: `none` is `-1`. -/
def lastIndexOfEspacio : Texto → Option Nat
  | [] => none
  | c :: cs =>
      match lastIndexOfEspacio cs with
      | some i => some (i + 1)
      | none => if c = ' ' then some 0 else none

/-- The value of `nuevoTexto` computed by `aplicarSugerencia(sugerencia)` on the text
`texto`. -/
def nuevoTexto (texto : Texto) (sugerencia : Sugerencia) : Texto :=
  if sugerencia.tipo = some Tipo.correccion ∧ sugerencia.palabraOriginal.getD [] ≠ [] then
    replace (sugerencia.palabraOriginal.getD []) (comoCadena sugerencia.texto) texto
  else
    match lastIndexOfEspacio texto with
    | none => comoCadena sugerencia.texto ++ [' ']
    | some ultimoEspacio => texto.take (ultimoEspacio + 1) ++ comoCadena sugerencia.texto ++ [' ']

/-- The function `actualizarContadorPalabras()`: the number of non-empty pieces of the
trimmed text. -/
def contarPalabras (texto : Texto) : Nat :=
  ((split (trim texto)).filter (fun p => p.length > 0)).length

/-- The function `aplicarSugerencia(sugerencia)` on `estadoApp`, up to the timer it
starts; the second component is `nuevoCursorPos`, the offset given to the editor. -/
def aplicarSugerencia (e : EstadoApp) (sugerencia : Sugerencia) : EstadoApp × Nat :=
  let nuevo := nuevoTexto e.textoActual sugerencia
  let nuevoCursorPos := longitud nuevo
  ({ e with
      textoActual := nuevo,
      sugerenciasActivas := [],
      estadisticas :=
        { e.estadisticas with
            sugerenciasAceptadas := e.estadisticas.sugerenciasAceptadas + 1,
            palabrasEscritas := contarPalabras nuevo } },
    nuevoCursorPos)

/-! ## Event handlers -/

/-- The function `actualizarContadorPalabras()` on `estadoApp`. -/
def actualizarContadorPalabras (e : EstadoApp) : EstadoApp :=
  { e with estadisticas := { e.estadisticas with palabrasEscritas := contarPalabras e.textoActual } }

/-- The initial value of `estadoApp`; `ahora` is `Date.now()`. -/
def estadoInicial (ahora : Nat) : EstadoApp :=
  ⟨.general, [], [], metricasIniciales, true, 0, ⟨0, 0, ahora⟩⟩

/-- The handler `manejarCambioTexto(event)`, where `valor` is `event.target.value`; the
debounced run of `procesarTextoParaSugerencias` it may schedule is a later event. -/
def manejarCambioTexto (valor : Texto) (e : EstadoApp) : EstadoApp :=
  actualizarContadorPalabras { e with textoActual := valor }

/-- The keys after which `manejarTeclaLiberada` runs the pipeline. -/
def teclasDeProceso : List Texto :=
  [" ".toList, ".".toList, ",".toList, ";".toList, ":".toList, "?".toList, "!".toList]

/-- The handler `manejarTeclaLiberada(event)`, with `event.target.selectionStart` and
`event.key`. -/
def manejarTeclaLiberada (selectionStart : Nat) (key : Texto) (e : EstadoApp)
    (azar : Nat → ℚ) : EstadoApp × (Nat → ℚ) :=
  let e := { e with ultimaPosicionCursor := selectionStart }
  if key ∈ teclasDeProceso then
    if e.autoSugerenciasActivo then procesarTextoParaSugerencias e azar else (e, azar)
  else (e, azar)

/-- The handler `manejarCambioCursor()`; `editorActivo` says that the editor is the active
element of the document. -/
def manejarCambioCursor (editorActivo : Bool) (selectionStart : Nat) (e : EstadoApp) :
    EstadoApp :=
  if editorActivo then { e with ultimaPosicionCursor := selectionStart } else e

/-- The handler `manejarCambioContexto(event)`, where `valor` is `event.target.value`. -/
def manejarCambioContexto (valor : Contexto) (e : EstadoApp) (azar : Nat → ℚ) :
    EstadoApp × (Nat → ℚ) :=
  let e := { e with contextoActual := valor }
  if e.textoActual ≠ [] ∧ e.autoSugerenciasActivo = true then procesarTextoParaSugerencias e azar
  else (e, azar)

/-- The handler `manejarToggleAutoSugerencias(event)`, where `checked` is
`event.target.checked`. -/
def manejarToggleAutoSugerencias (checked : Bool) (e : EstadoApp) (azar : Nat → ℚ) :
    EstadoApp × (Nat → ℚ) :=
  let e := { e with autoSugerenciasActivo := checked }
  if ¬ e.autoSugerenciasActivo = true then (limpiarSugerencias e, azar)
  else if e.textoActual ≠ [] then procesarTextoParaSugerencias e azar
  else (e, azar)

/-- The handler `limpiarTexto()`; `ahora` is `Date.now()`. -/
def limpiarTexto (ahora : Nat) (e : EstadoApp) : EstadoApp :=
  let e := { e with textoActual := [], ultimaPosicionCursor := 0 }
  let e := limpiarSugerencias e
  let e := actualizarContadorPalabras e
  { e with estadisticas := ⟨0, 0, ahora⟩ }

/-- The array `textosDemo` of `activarModoDemo`. -/
def textosDemo : List Texto :=
  ["¡Hola parce! ¿Cómo estas? Espero que todo esté muy bien.".toList,
   "Estimado señor Martinez, nos permitimos informar que el analisis está listo.".toList,
   "La película estuvo muy interesante, realmente quedé sorprendido.".toList,
   "El proyecto de investigacion requiere una metodologia más rigurosa.".toList]

/-- The handler `activarModoDemo()`: the text is `textosDemo[Math.floor(r * 4)]` for the
next draw `r`, which lies in [0,1), so that the index is one of the array. -/
def activarModoDemo (e : EstadoApp) (azar : Nat → ℚ) : EstadoApp × (Nat → ℚ) :=
  let textoAleatorio := (textosDemo.get? ⌊azar 0 * 4⌋.toNat).getD []
  let azar := fun n => azar (n + 1)
  let e := actualizarContadorPalabras { e with textoActual := textoAleatorio }
  if e.autoSugerenciasActivo then procesarTextoParaSugerencias e azar else (e, azar)

/-- The handler `cargarCasoDemo(casoElement)`, with the two data attributes of the
element; the run of the pipeline it schedules is a later event. -/
def cargarCasoDemo (texto : Texto) (contexto : Contexto) (e : EstadoApp) : EstadoApp :=
  actualizarContadorPalabras { e with textoActual := texto, contextoActual := contexto }

/-- The callback of a timer: the debounced call of `manejarCambioTexto` and the timer of
`obtenerSugerenciasManual` run the pipeline outright, the timers of `aplicarSugerencia`
and `cargarCasoDemo` run it when the automatic suggestions are on. -/
def temporizador (condicional : Bool) (e : EstadoApp) (azar : Nat → ℚ) :
    EstadoApp × (Nat → ℚ) :=
  if condicional then
    if e.autoSugerenciasActivo then procesarTextoParaSugerencias e azar else (e, azar)
  else procesarTextoParaSugerencias e azar

/-- The events that the program handles, with the data each handler reads. -/
inductive Evento
  | cambioTexto (valor : Texto)
  | teclaLiberada (selectionStart : Nat) (key : Texto)
  | cambioCursor (editorActivo : Bool) (selectionStart : Nat)
  | cambioContexto (valor : Contexto)
  | toggleAutoSugerencias (checked : Bool)
  | sugerenciasManual
  | clicSugerencia (sugerencia : Sugerencia)
  | limpiar (ahora : Nat)
  | modoDemo
  | casoDemo (texto : Texto) (contexto : Contexto)
  | timer (condicional : Bool)

/-- The dispatch of one event to its handler, on `estadoApp` and the stream of draws.
`obtenerSugerenciasManual` only shows a notification and starts a timer. -/
def manejar (estado : EstadoApp × (Nat → ℚ)) : Evento → EstadoApp × (Nat → ℚ)
  | .cambioTexto valor => (manejarCambioTexto valor estado.1, estado.2)
  | .teclaLiberada selectionStart key =>
      manejarTeclaLiberada selectionStart key estado.1 estado.2
  | .cambioCursor editorActivo selectionStart =>
      (manejarCambioCursor editorActivo selectionStart estado.1, estado.2)
  | .cambioContexto valor => manejarCambioContexto valor estado.1 estado.2
  | .toggleAutoSugerencias checked => manejarToggleAutoSugerencias checked estado.1 estado.2
  | .sugerenciasManual => estado
  | .clicSugerencia sugerencia => ((aplicarSugerencia estado.1 sugerencia).1, estado.2)
  | .limpiar ahora => (limpiarTexto ahora estado.1, estado.2)
  | .modoDemo => activarModoDemo estado.1 estado.2
  | .casoDemo texto contexto => (cargarCasoDemo texto contexto estado.1, estado.2)
  | .timer condicional => temporizador condicional estado.1 estado.2

/-- The state after a sequence of events, from the initial state. -/
def ejecutar (ahora : Nat) (azar : Nat → ℚ) (eventos : List Evento) :
    EstadoApp × (Nat → ℚ) :=
  eventos.foldl manejar (estadoInicial ahora, azar)

/-! ## Definitions that follow the words of the specification -/

/-- The assembly of predictions as the specification words it, every value written out,
for the text `cola` of the trailing tokens: the entries of the context table, in table
order, when the context is not general; then `bueno` 0.78 and `interesante` 0.71 when
`cola` contains `muy`; then `chévere` 0.85 and `bacana` 0.79 when `cola` contains
`película estuvo`. -/
def ensambladoDe (cola : Texto) (contexto : Contexto) : List Sugerencia :=
  (match contexto with
    | .general => []
    | .informal =>
        [⟨some "chévere".toList, some 0.88, some .prediccion, none, some "→".toList⟩,
         ⟨some "bacano".toList, some 0.82, some .prediccion, none, some "→".toList⟩,
         ⟨some "genial".toList, some 0.75, some .prediccion, none, some "→".toList⟩]
    | .formal =>
        [⟨some "cordialmente".toList, some 0.91, some .completado, none, some "→".toList⟩,
         ⟨some "atentamente".toList, some 0.87, some .completado, none, some "→".toList⟩]
    | .academico =>
        [⟨some "investigación".toList, some 0.84, some .prediccion, none, some "→".toList⟩,
         ⟨some "metodología".toList, some 0.79, some .prediccion, none, some "→".toList⟩]) ++
  (if includes cola "muy".toList then
      [⟨some "bueno".toList, some 0.78, some .prediccion, none, some "→".toList⟩,
       ⟨some "interesante".toList, some 0.71, some .prediccion, none, some "→".toList⟩]
    else []) ++
  (if includes cola "película estuvo".toList then
      [⟨some "chévere".toList, some 0.85, some .prediccion, none, some "🇨🇴".toList⟩,
       ⟨some "bacana".toList, some 0.79, some .prediccion, none, some "🇨🇴".toList⟩]
    else [])

/-- The assembly of the specification for a token list, read to the letter: the text of
the trailing tokens is the last three tokens joined by single spaces, as they are. -/
def ensamblado (palabras : List Texto) (contexto : Contexto) : List Sugerencia :=
  ensambladoDe (join (sliceUltimos 3 palabras)) contexto

/-- The assembly of the specification on the lower-cased text of the trailing tokens:
the last three tokens joined by single spaces, in lower case. -/
def ensambladoMinusculas (palabras : List Texto) (contexto : Contexto) : List Sugerencia :=
  ensambladoDe (toLowerCase (join (sliceUltimos 3 palabras))) contexto

/-- The order of two suggestions with numeric confidences: the first is at least as
confident as the second. -/
def noMenosConfiable (a b : Sugerencia) : Prop :=
  ∃ x y, a.confianza = some x ∧ b.confianza = some y ∧ y ≤ x

instance instDecidableNoMenosConfiable : DecidableRel noMenosConfiable := fun a b =>
  match ha : a.confianza, hb : b.confianza with
  | some x, some y =>
      if h : y ≤ x then isTrue ⟨x, y, ha, hb, h⟩
      else isFalse (fun ⟨x', y', hx, hy, hle⟩ => by
        rw [ha] at hx; rw [hb] at hy; cases hx; cases hy; exact h hle)
  | none, _ => isFalse (fun ⟨_, _, hx, _, _⟩ => by rw [ha] at hx; cases hx)
  | some _, none => isFalse (fun ⟨_, _, _, hy, _⟩ => by rw [hb] at hy; cases hy)

/-- The character `c` is the lower-case ASCII letter `p` or its capital. -/
def mismaLetra (c p : Char) : Bool := c.toNat == p.toNat || c.toNat + 32 == p.toNat

/-- The text `a` is the word `b`, of lower-case ASCII letters, when case is ignored:
letter by letter, each character of `a` is the letter of `b` or its capital. -/
def igualSinCaso : Texto → Texto → Bool
  | [], [] => true
  | c :: cs, p :: ps => mismaLetra c p && igualSinCaso cs ps
  | _, _ => false

/-- What stands for a whole word `palabra` after the replacement of `clave` by
`reemplazo`: the replacement when the word is `clave`, case ignored, else the word. -/
def reemplazarSiCoincide (clave reemplazo palabra : Texto) : Texto :=
  if igualSinCaso palabra clave then reemplazo else palabra

/-- Replacement run by run, where a run is a maximal run of the word characters of the
pattern, `[A-Za-z0-9_]`: the text is read from left to right, `actual` holds the run
being read, reversed; a run ends at the first character that is not a word character,
which is copied. An accented letter ends a run. -/
def reemplazarPalabrasAux (clave reemplazo : Texto) : Texto → Texto → Texto
  | actual, [] => reemplazarSiCoincide clave reemplazo actual.reverse
  | actual, c :: cs =>
      if esPalabra c then reemplazarPalabrasAux clave reemplazo (c :: actual) cs
      else reemplazarSiCoincide clave reemplazo actual.reverse ++
        c :: reemplazarPalabrasAux clave reemplazo [] cs

/-- The text in which every maximal run of `[A-Za-z0-9_]` equal to `clave`, case ignored,
is replaced by `reemplazo` and every other character is kept. -/
def reemplazarPalabras (clave reemplazo texto : Texto) : Texto :=
  reemplazarPalabrasAux clave reemplazo [] texto

/-- A character of a written word: a word character of ASCII or a letter of Latin-1
Supplement, which holds the accented vowels and the `ñ` of Spanish. -/
def esLetraDePalabra (c : Char) : Bool :=
  esPalabra c || (0xC0 ≤ c.toNat && c.toNat ≤ 0xFF && c.toNat != 0xD7 && c.toNat != 0xF7)

/-- Replacement word by word, where a word is a maximal run of the characters of written
words; `actual` holds the word being read, reversed. -/
def reemplazarPalabrasEnterasAux (clave reemplazo : Texto) : Texto → Texto → Texto
  | actual, [] => reemplazarSiCoincide clave reemplazo actual.reverse
  | actual, c :: cs =>
      if esLetraDePalabra c then reemplazarPalabrasEnterasAux clave reemplazo (c :: actual) cs
      else reemplazarSiCoincide clave reemplazo actual.reverse ++
        c :: reemplazarPalabrasEnterasAux clave reemplazo [] cs

/-- The text in which every whole word equal to `clave`, case ignored, is replaced by
`reemplazo` and every other character is kept, as the specification asks. -/
def reemplazarPalabrasEnteras (clave reemplazo texto : Texto) : Texto :=
  reemplazarPalabrasEnterasAux clave reemplazo [] texto

/-- A pattern of ASCII lower-case letters, not empty. -/
def esPatronMinusculas (k : Texto) : Prop :=
  k ≠ [] ∧ ∀ p ∈ k, 0x61 ≤ p.toNat ∧ p.toNat ≤ 0x7A

instance instDecidableEsPatronMinusculas (k : Texto) : Decidable (esPatronMinusculas k) :=
  inferInstanceAs (Decidable (k ≠ [] ∧ ∀ p ∈ k, 0x61 ≤ p.toNat ∧ p.toNat ≤ 0x7A))

/-- A list of suggestions with a tie of confidence, used as an example of ranking. -/
def sugerenciasEjemplo : List Sugerencia :=
  [⟨some "genial".toList, some 0.75, some .prediccion, none, some iconoPrediccion⟩,
   ⟨some "bueno".toList, some 0.78, some .prediccion, none, some iconoPrediccion⟩,
   ⟨some "parce".toList, some 0.75, some .colombianismo, none, some iconoColombia⟩]

/-- Count of the tokens of a text read from left to right: a token starts at a character
that is not white space and does not follow such a character; `enToken` says that the
character before was part of a token. -/
def contarTokens : Bool → Texto → Nat
  | _, [] => 0
  | enToken, c :: cs =>
      if esEspacio c then contarTokens false cs
      else (if enToken then 0 else 1) + contarTokens true cs

/-- The number of non-empty tokens of a text delimited by white space. -/
def numeroDeTokens (texto : Texto) : Nat := contarTokens false texto

/-- The word counter of `estadoApp` is the one `actualizarContadorPalabras` computes from
the current text. -/
def contadorAlDia (e : EstadoApp) : Prop :=
  e.estadisticas.palabrasEscritas = contarPalabras e.textoActual

instance instDecidableContadorAlDia (e : EstadoApp) : Decidable (contadorAlDia e) :=
  inferInstanceAs (Decidable (e.estadisticas.palabrasEscritas = contarPalabras e.textoActual))

/-! ## Text functions and predictions -/

theorem trim_blanco (t : Texto) (h : ∀ c ∈ t, esEspacio c = true) : trim t = [] := by
  have h1 : t.dropWhile esEspacio = [] := List.dropWhile_eq_nil_iff.mpr h
  simp [trim, h1]

theorem includes_iff (t parte : Texto) : includes t parte = true ↔ parte <:+: t := by
  induction t with
  | nil => simp [includes, List.isEmpty_iff]
  | cons c cs ih => simp [includes, ih, List.infix_cons_iff]

theorem join_cons_cons (x y : Texto) (l : List Texto) :
    join (x :: y :: l) = x ++ ' ' :: join (y :: l) := by
  simp [join, List.intercalate, List.intersperse]

theorem join_concat (xs : List Texto) (w : Texto) : ∃ a, join (xs ++ [w]) = a ++ w := by
  induction xs with
  | nil => exact ⟨[], by simp [join, List.intercalate, List.intersperse]⟩
  | cons x rest ih =>
    obtain ⟨a, ha⟩ := ih
    cases rest with
    | nil => exact ⟨x ++ [' '], by simp [join, List.intercalate, List.intersperse]⟩
    | cons y l =>
      refine ⟨x ++ ' ' :: a, ?_⟩
      have : (x :: y :: l) ++ [w] = x :: y :: (l ++ [w]) := rfl
      rw [this, join_cons_cons]
      have h2 : y :: (l ++ [w]) = (y :: l) ++ [w] := rfl
      rw [h2, ha]; simp

theorem sliceUltimos_concat (n : Nat) (ini : List Texto) (w : Texto) :
    sliceUltimos (n + 1) (ini ++ [w]) = sliceUltimos n ini ++ [w] := by
  unfold sliceUltimos
  rw [List.drop_append_of_le_length (by simp)]
  simp

theorem includes_cola_muy (n : Nat) (palabras : List Texto)
    (h : palabras.getLast? = some "muy".toList) :
    includes (toLowerCase (join (sliceUltimos (n + 1) palabras))) "muy".toList = true := by
  obtain ⟨ini, rfl⟩ : ∃ ini, palabras = ini ++ ["muy".toList] := by
    rcases List.eq_nil_or_concat palabras with h0 | ⟨ini, w, rfl⟩
    · simp [h0] at h
    · simp at h; exact ⟨ini, by simp [h]⟩
  rw [sliceUltimos_concat]
  obtain ⟨a, ha⟩ := join_concat (sliceUltimos n ini) "muy".toList
  rw [ha, includes_iff]
  refine ⟨toLowerCase a, [], ?_⟩
  simp [toLowerCase]
  decide

theorem generarPredicciones_eq (palabras : List Texto) (contexto : Contexto) :
    generarPredicciones palabras contexto =
      (ensambladoDe (toLowerCase (join (sliceUltimos 3 palabras))) contexto).take 3 := by
  cases contexto <;>
    simp only [generarPredicciones, ensambladoDe, prediccionesContextuales] <;>
    split_ifs <;>
    simp_all [conIcono, prediccionesMuy, prediccionesPelicula, iconoPrediccion, iconoColombia]

theorem generarPredicciones_informal (palabras : List Texto) :
    generarPredicciones palabras .informal =
      [⟨some "chévere".toList, some 0.88, some .prediccion, none, some iconoPrediccion⟩,
       ⟨some "bacano".toList, some 0.82, some .prediccion, none, some iconoPrediccion⟩,
       ⟨some "genial".toList, some 0.75, some .prediccion, none, some iconoPrediccion⟩] := by
  rw [generarPredicciones_eq]
  simp [ensambladoDe, iconoPrediccion]

theorem generarPredicciones_general_muy (palabras : List Texto)
    (h : palabras.getLast? = some "muy".toList) :
    (generarPredicciones palabras .general).take 2 = prediccionesMuy := by
  have hm := includes_cola_muy 2 palabras h
  rw [generarPredicciones_eq]
  unfold ensambladoDe
  rw [if_pos hm]
  simp [prediccionesMuy, List.take_take, iconoPrediccion]

theorem toLowerCase_join (palabras : List Texto) (h : ∀ p ∈ palabras, toLowerCase p = p) :
    toLowerCase (join palabras) = join palabras := by
  induction palabras with
  | nil => rfl
  | cons x rest ih =>
    cases rest with
    | nil => simpa [join, List.intercalate, List.intersperse] using h x (by simp)
    | cons y l =>
      rw [join_cons_cons]
      have hx := h x (by simp)
      have hr := ih (fun p hp => h p (by simp [hp]))
      have : toLowerCase (x ++ ' ' :: join (y :: l)) =
          toLowerCase x ++ aMinuscula ' ' :: toLowerCase (join (y :: l)) := by
        simp [toLowerCase]
      rw [this, hx, hr]; rfl

theorem sugerirColombianismos_muy_informal_eval :
    (sugerirColombianismos ["muy".toList] .informal (fun _ => 0)).1 =
      [colombianismoAleatorio "bacano".toList 0, colombianismoAleatorio "chévere".toList 0] := by
  have hm : includes (toLowerCase (join (sliceUltimos 2 ["muy".toList]))) "muy".toList = true := by
    decide
  have hh : includes (toLowerCase (join (sliceUltimos 2 ["muy".toList]))) "hola".toList = false := by
    decide
  simp only [sugerirColombianismos, hm, hh]
  simp [colombianismosInformal, pasoColombianismo]

theorem sugerirColombianismos_informal_muy_eq (palabras : List Texto) (azar : Nat → ℚ)
    (h : palabras.getLast? = some "muy".toList) :
    sugerirColombianismos palabras .informal azar =
      ((if includes (toLowerCase (join (sliceUltimos 2 palabras))) "hola".toList then
          [colombianismoHola] else []) ++
        [colombianismoAleatorio "bacano".toList (azar 0),
         colombianismoAleatorio "chévere".toList (azar 1)],
       fun n => azar (n + 2)) := by
  have hm := includes_cola_muy 1 palabras h
  unfold sugerirColombianismos
  simp only [hm]
  simp [colombianismosInformal, pasoColombianismo]

theorem mathRound_entre (x : ℚ) (a b : ℤ) (ha : (a : ℚ) ≤ x) (hb : x ≤ (b : ℚ)) :
    a ≤ mathRound x ∧ mathRound x ≤ b := by
  unfold mathRound
  constructor
  · apply Int.le_floor.mpr; linarith
  · have : ⌊x + 1 / 2⌋ < b + 1 := by
      apply Int.floor_lt.mpr; push_cast; linarith
    omega

theorem redondearDecima_entre (x : ℚ) (a b : ℤ) (ha : (a : ℚ) ≤ x) (hb : x ≤ (b : ℚ)) :
    (a : ℚ) ≤ redondearDecima x ∧ redondearDecima x ≤ (b : ℚ) := by
  unfold redondearDecima
  have h := mathRound_entre (x * 10) (a * 10) (b * 10) (by push_cast; linarith)
    (by push_cast; linarith)
  have h1 : ((a * 10 : ℤ) : ℚ) ≤ (mathRound (x * 10) : ℚ) := by exact_mod_cast h.1
  have h2 : (mathRound (x * 10) : ℚ) ≤ ((b * 10 : ℤ) : ℚ) := by exact_mod_cast h.2
  push_cast at h1 h2
  constructor
  · rw [le_div_iff₀ (by norm_num)]; linarith
  · rw [div_le_iff₀ (by norm_num)]; linarith

theorem acotado_entre (lo hi : ℤ) (x : ℚ) (h : lo ≤ hi) :
    (lo : ℚ) ≤ max (lo : ℚ) (min (hi : ℚ) x) ∧ max (lo : ℚ) (min (hi : ℚ) x) ≤ (hi : ℚ) :=
  ⟨le_max_left _ _, max_le (by exact_mod_cast h) (min_le_left _ _)⟩

/-! ## Ranking -/

theorem insertarOrdenado_perm (a : Sugerencia) (l : List Sugerencia) :
    (insertarOrdenado a l).Perm (a :: l) := by
  induction l with
  | nil => exact List.Perm.refl _
  | cons b l ih =>
    unfold insertarOrdenado
    split_ifs
    · exact List.Perm.refl _
    · exact (List.Perm.cons b ih).trans (List.Perm.swap a b l)

theorem sort_perm (l : List Sugerencia) : (sort l).Perm l := by
  induction l with
  | nil => exact List.Perm.refl _
  | cons a l ih =>
    show (insertarOrdenado a (sort l)).Perm (a :: l)
    exact (insertarOrdenado_perm a (sort l)).trans (List.Perm.cons a ih)

theorem compararConfianza_num (a b : Sugerencia) (x y : ℚ) (ha : a.confianza = some x)
    (hb : b.confianza = some y) : compararConfianza a b = y - x := by
  simp [compararConfianza, ha, hb]

theorem insertarOrdenado_ordenada (a : Sugerencia) (l : List Sugerencia)
    (ha : a.confianza ≠ none) (hl : ∀ s ∈ l, s.confianza ≠ none)
    (hs : l.Pairwise noMenosConfiable) : (insertarOrdenado a l).Pairwise noMenosConfiable := by
  obtain ⟨x, hx⟩ := Option.ne_none_iff_exists'.mp ha
  induction l with
  | nil => simp [insertarOrdenado]
  | cons b l ih =>
    obtain ⟨y, hy⟩ := Option.ne_none_iff_exists'.mp (hl b (by simp))
    rw [List.pairwise_cons] at hs
    unfold insertarOrdenado
    rw [compararConfianza_num a b x y hx hy]
    split_ifs with hc
    · refine List.pairwise_cons.mpr ⟨?_, List.pairwise_cons.mpr hs⟩
      intro s hsm
      rcases List.mem_cons.mp hsm with rfl | hsl
      · exact ⟨x, y, hx, hy, by linarith⟩
      · obtain ⟨y', z, hy', hz, hle⟩ := hs.1 s hsl
        rw [hy] at hy'; cases hy'
        exact ⟨x, z, hx, hz, by linarith⟩
    · refine List.pairwise_cons.mpr ⟨?_, ih (fun s h => hl s (by simp [h])) hs.2⟩
      intro s hsm
      rcases List.mem_cons.mp ((insertarOrdenado_perm a l).mem_iff.mp hsm) with rfl | hsl
      · exact ⟨y, x, hy, hx, by linarith⟩
      · exact hs.1 s hsl

theorem sort_ordenada (l : List Sugerencia) (hl : ∀ s ∈ l, s.confianza ≠ none) :
    (sort l).Pairwise noMenosConfiable := by
  induction l with
  | nil => exact List.Pairwise.nil
  | cons a l ih =>
    show (insertarOrdenado a (sort l)).Pairwise noMenosConfiable
    have hl' : ∀ s ∈ l, s.confianza ≠ none := fun s h => hl s (by simp [h])
    exact insertarOrdenado_ordenada a (sort l) (hl a (by simp))
      (fun s h => hl' s ((sort_perm l).mem_iff.mp h)) (ih hl')

theorem insertarOrdenado_filter (c : ℚ) (a : Sugerencia) (l : List Sugerencia) :
    (insertarOrdenado a l).filter (fun s => decide (s.confianza = some c)) =
      (a :: l).filter (fun s => decide (s.confianza = some c)) := by
  induction l with
  | nil => rfl
  | cons b l ih =>
    unfold insertarOrdenado
    split_ifs with hc
    · rfl
    · have hne : ¬ (a.confianza = some c ∧ b.confianza = some c) := by
        rintro ⟨h1, h2⟩
        apply hc
        rw [compararConfianza_num a b c c h1 h2]; simp
      by_cases hb : b.confianza = some c
      · have ha : a.confianza ≠ some c := fun h => hne ⟨h, hb⟩
        simp [List.filter_cons, hb, ha, ih]
      · simp [List.filter_cons, hb, ih]

theorem sort_filter (c : ℚ) (l : List Sugerencia) :
    (sort l).filter (fun s => decide (s.confianza = some c)) =
      l.filter (fun s => decide (s.confianza = some c)) := by
  induction l with
  | nil => rfl
  | cons a l ih =>
    show (insertarOrdenado a (sort l)).filter _ = _
    rw [insertarOrdenado_filter, List.filter_cons, List.filter_cons, ih]

theorem mostrarSugerencias_eq_sort (l : List Sugerencia) : mostrarSugerencias l = sort l := by
  cases l <;> simp [mostrarSugerencias, sort]

/-! ## Replacement of a misspelt word -/

theorem esPalabra_de_canonicalizar (p c : Char) (hp : 0x61 ≤ p.toNat ∧ p.toNat ≤ 0x7A)
    (h : canonicalizar p = canonicalizar c) : esPalabra c = true := by
  have hp' : canonicalizar p = p.toNat - 32 := by
    simp only [canonicalizar]
    rw [if_pos]
    simp [hp.1, hp.2]
  rw [hp'] at h
  simp only [canonicalizar] at h
  simp only [esPalabra, Bool.or_eq_true, Bool.and_eq_true, decide_eq_true_eq, beq_iff_eq]
  split_ifs at h with h1 h2 h3
  · simp only [Bool.or_eq_true, Bool.and_eq_true, decide_eq_true_eq, bne_iff_ne] at h1
    omega
  · omega
  · omega
  · omega

theorem mismaLetra_iff (c p : Char) (hp : 0x61 ≤ p.toNat ∧ p.toNat ≤ 0x7A) :
    mismaLetra c p = true ↔ canonicalizar c = canonicalizar p := by
  have hp' : canonicalizar p = p.toNat - 32 := by
    simp only [canonicalizar]
    rw [if_pos]
    simp [hp.1, hp.2]
  rw [hp']
  simp only [mismaLetra, canonicalizar, Bool.or_eq_true, beq_iff_eq]
  split_ifs with h1 h2 h3
  · simp only [Bool.or_eq_true, Bool.and_eq_true, decide_eq_true_eq, bne_iff_ne] at h1
    omega
  · simp only [beq_iff_eq] at h2
    omega
  · simp only [beq_iff_eq] at h3
    omega
  · simp only [Bool.or_eq_true, Bool.and_eq_true, decide_eq_true_eq, bne_iff_ne, not_or,
      not_and, beq_iff_eq] at h1 h2 h3
    omega

theorem igualSinCaso_iff (k : Texto) (hk : ∀ p ∈ k, 0x61 ≤ p.toNat ∧ p.toNat ≤ 0x7A) :
    ∀ w : Texto, igualSinCaso w k = true ↔ w.map canonicalizar = k.map canonicalizar := by
  induction k with
  | nil => intro w; cases w <;> simp [igualSinCaso]
  | cons p ps ih =>
    intro w
    cases w with
    | nil => simp [igualSinCaso]
    | cons c cs =>
      simp only [igualSinCaso, Bool.and_eq_true, List.map_cons, List.cons.injEq,
        mismaLetra_iff c p (hk p (by simp)), ih (fun q hq => hk q (by simp [hq])) cs]

theorem coincideLiteral_iff (k t : Texto) :
    coincideLiteral k t = true ↔
      k.length ≤ t.length ∧ (t.take k.length).map canonicalizar = k.map canonicalizar := by
  induction k generalizing t with
  | nil => simp [coincideLiteral]
  | cons p ps ih =>
    cases t with
    | nil => simp [coincideLiteral]
    | cons c cs =>
      simp only [coincideLiteral, Bool.and_eq_true, beq_iff_eq, ih, List.length_cons,
        List.take_succ_cons, List.map_cons, List.cons.injEq, Nat.add_le_add_iff_right]
      constructor
      · rintro ⟨h1, h2, h3⟩; exact ⟨h2, h1.symm, h3⟩
      · rintro ⟨h2, h1, h3⟩; exact ⟨h1.symm, h2, h3⟩

theorem getSubstitution_sin_dolar (m a p : Texto) :
    ∀ r : Texto, '$' ∉ r → getSubstitution m a p r = r
  | [], _ => rfl
  | [_], _ => rfl
  | c :: d :: resto, h => by
    have hc : c ≠ '$' := fun hc => h (by simp [hc])
    have ih := getSubstitution_sin_dolar m a p (d :: resto) (fun hm => h (List.mem_cons_of_mem _ hm))
    rw [getSubstitution, if_neg hc, ih]

theorem replaceAux_saltar (k r : Texto) (m prev t : Texto) :
    replaceAux k r m.length prev (m ++ t) = replaceAux k r 0 (m.reverse ++ prev) t := by
  induction m generalizing prev with
  | nil => rfl
  | cons c m ih =>
    show replaceAux k r (m.length + 1) prev (c :: (m ++ t)) = _
    rw [replaceAux, ih]
    simp

theorem coincideEn_dentro (k : Texto) (p c : Char) (cs : Texto) (hp : esPalabra p = true)
    (hc : esPalabra c = true) : coincideEn k (some p) (c :: cs) = false := by
  simp [coincideEn, esLimite, esPalabraOpt, hp, hc]

theorem coincideEn_no_palabra (k : Texto) (hk : esPatronMinusculas k) (antes : Option Char)
    (c : Char) (cs : Texto) (hc : esPalabra c = false) : coincideEn k antes (c :: cs) = false := by
  obtain ⟨p, ps, rfl⟩ := List.exists_cons_of_ne_nil hk.1
  have : coincideLiteral (p :: ps) (c :: cs) = false := by
    by_contra hne
    simp only [coincideLiteral, Bool.not_eq_false, Bool.and_eq_true, beq_iff_eq] at hne
    have := esPalabra_de_canonicalizar p c (hk.2 p (by simp)) hne.1
    rw [hc] at this; cases this
  simp [coincideEn, this]

theorem replaceAux_dentro (k r : Texto) (t : Texto) :
    ∀ (p : Char) (ps : Texto), esPalabra p = true →
      replaceAux k r 0 (p :: ps) t =
        t.takeWhile esPalabra ++
          replaceAux k r 0 ((t.takeWhile esPalabra).reverse ++ p :: ps) (t.dropWhile esPalabra) := by
  induction t with
  | nil => intro p ps _; rfl
  | cons c cs ih =>
    intro p ps hp
    by_cases hc : esPalabra c = true
    · rw [replaceAux, List.head?_cons, coincideEn_dentro k p c cs hp hc]
      simp only [Bool.false_eq_true, if_false, List.takeWhile_cons, hc, if_true,
        List.dropWhile_cons, List.cons_append, List.reverse_cons, List.append_assoc,
        List.singleton_append]
      rw [ih c (p :: ps) hc]
      simp
    · simp [List.takeWhile_cons, List.dropWhile_cons, hc]

theorem takeWhile_de_prefijo (m d : Texto) (hm : ∀ c ∈ m, esPalabra c = true)
    (hd : esPalabraOpt d.head? = false) :
    (m ++ d).takeWhile esPalabra = m ∧ (m ++ d).dropWhile esPalabra = d := by
  induction m with
  | nil =>
    cases d with
    | nil => simp
    | cons x xs =>
      have hx : esPalabra x = false := by simpa [esPalabraOpt] using hd
      simp [List.takeWhile_cons, List.dropWhile_cons, hx]
  | cons c m ih =>
    have hc := hm c (by simp)
    have := ih (fun x hx => hm x (by simp [hx]))
    simp [List.takeWhile_cons, List.dropWhile_cons, hc, this]

theorem take_length_takeWhile (t : Texto) :
    t.take (t.takeWhile esPalabra).length = t.takeWhile esPalabra := by
  have h := List.takeWhile_append_dropWhile esPalabra t
  generalize t.takeWhile esPalabra = a at h ⊢
  generalize t.dropWhile esPalabra = b at h
  subst h; simp

theorem drop_length_takeWhile (t : Texto) :
    t.drop (t.takeWhile esPalabra).length = t.dropWhile esPalabra := by
  have h := List.takeWhile_append_dropWhile esPalabra t
  generalize t.takeWhile esPalabra = a at h ⊢
  generalize t.dropWhile esPalabra = b at h
  subst h; simp

theorem esPalabraOpt_head_dropWhile (t : Texto) :
    esPalabraOpt (t.dropWhile esPalabra).head? = false := by
  induction t with
  | nil => rfl
  | cons c cs ih =>
    by_cases hc : esPalabra c = true
    · simpa [List.dropWhile_cons, hc] using ih
    · simp [List.dropWhile_cons, hc, esPalabraOpt]

theorem esPalabraOpt_getLast (w : Texto) (hw : w ≠ []) (h : ∀ c ∈ w, esPalabra c = true) :
    esPalabraOpt w.getLast? = true := by
  rw [List.getLast?_eq_getLast _ hw]
  exact h _ (List.getLast_mem hw)

theorem replaceAux_inicio_palabra (k r : Texto) (hk : esPatronMinusculas k) (hr : '$' ∉ r)
    (prev : Texto) (c : Char) (cs : Texto) (hprev : esPalabraOpt prev.head? = false)
    (hc : esPalabra c = true) :
    replaceAux k r 0 prev (c :: cs) =
      reemplazarSiCoincide k r (c :: cs.takeWhile esPalabra) ++
        replaceAux k r 0 ((c :: cs.takeWhile esPalabra).reverse ++ prev)
          (cs.dropWhile esPalabra) := by
  have hcs : cs = cs.takeWhile esPalabra ++ cs.dropWhile esPalabra :=
    (List.takeWhile_append_dropWhile _ _).symm
  have hwW : ∀ x ∈ c :: cs.takeWhile esPalabra, esPalabra x = true := by
    intro x hx
    rcases List.mem_cons.mp hx with rfl | hx
    · exact hc
    · exact (List.mem_takeWhile_imp hx)
  by_cases hig : igualSinCaso (c :: cs.takeWhile esPalabra) k = true
  · -- the word is the key: the pattern matches here
    have hmap : (c :: cs.takeWhile esPalabra).map canonicalizar = k.map canonicalizar :=
      (igualSinCaso_iff k hk.2 _).mp hig
    have hlen : k.length = (cs.takeWhile esPalabra).length + 1 := by
      have := congrArg List.length hmap
      simpa using this.symm
    have htake : (c :: cs).take k.length = c :: cs.takeWhile esPalabra := by
      rw [hlen, List.take_succ_cons, take_length_takeWhile]
    have hdrop : (c :: cs).drop k.length = cs.dropWhile esPalabra := by
      rw [hlen, List.drop_succ_cons, drop_length_takeWhile]
    have hmatch : coincideEn k prev.head? (c :: cs) = true := by
      have h1 : coincideLiteral k (c :: cs) = true := by
        rw [coincideLiteral_iff, htake]
        refine ⟨?_, hmap⟩
        rw [hlen, List.length_cons]
        have := congrArg List.length hcs
        rw [List.length_append] at this
        omega
      have h2 := esPalabraOpt_getLast (c :: cs.takeWhile esPalabra) (by simp) hwW
      have h3 := esPalabraOpt_head_dropWhile cs
      have h0 : esPalabraOpt (some c) = true := hc
      simp only [coincideEn, h1, htake, hdrop, esLimite, hprev, h0, h2, h3, List.head?_cons]
      rfl
    rw [replaceAux, if_pos hmatch, getSubstitution_sin_dolar _ _ _ r hr]
    simp only [reemplazarSiCoincide, hig, if_true]
    congr 1
    have hk1 : k.length - 1 = (cs.takeWhile esPalabra).length := by omega
    have hs := replaceAux_saltar k r (cs.takeWhile esPalabra) (c :: prev) (cs.dropWhile esPalabra)
    rw [List.takeWhile_append_dropWhile] at hs
    rw [hk1, hs]
    simp
  · -- the word is not the key: no match, the word is copied
    have hno : coincideEn k prev.head? (c :: cs) = false := by
      by_contra hne
      have hne : coincideEn k prev.head? (c :: cs) = true := by simpa using hne
      simp only [coincideEn, Bool.and_eq_true] at hne
      obtain ⟨⟨_, h1⟩, h2⟩ := hne
      rw [coincideLiteral_iff] at h1
      obtain ⟨hle, hmap⟩ := h1
      have hk0 : 0 < k.length := List.length_pos.mpr hk.1
      -- every matched character is a word character
      have hmW : ∀ x ∈ (c :: cs).take k.length, esPalabra x = true := by
        intro x hx
        obtain ⟨i, hi, rfl⟩ := List.mem_iff_getElem.mp hx
        have hi' : i < k.length := by
          have := hi
          simp only [List.length_take] at this
          omega
        have hcan : canonicalizar (k[i]) = canonicalizar (((c :: cs).take k.length)[i]) := by
          have := congrArg (fun l => l[i]?) hmap
          simp only [List.getElem?_map] at this
          rw [List.getElem?_eq_getElem hi, List.getElem?_eq_getElem hi'] at this
          simpa using this.symm
        exact esPalabra_de_canonicalizar _ _ (hk.2 _ (List.getElem_mem hi')) hcan
      have hne0 : (c :: cs).take k.length ≠ [] := by
        obtain ⟨n, hn⟩ : ∃ n, k.length = n + 1 := ⟨k.length - 1, by omega⟩
        rw [hn, List.take_succ_cons]
        simp
      have hlast := esPalabraOpt_getLast _ hne0 hmW
      have hhead : esPalabraOpt ((c :: cs).drop k.length).head? = false := by
        simpa [esLimite, hlast] using h2
      have hsplit := takeWhile_de_prefijo _ _ hmW hhead
      rw [List.take_append_drop] at hsplit
      apply hig
      have : (c :: cs).takeWhile esPalabra = c :: cs.takeWhile esPalabra := by
        simp [List.takeWhile_cons, hc]
      rw [← this, hsplit.1]
      exact (igualSinCaso_iff k hk.2 _).mpr hmap
    rw [replaceAux, if_neg (by simp [hno]), replaceAux_dentro k r cs c prev hc]
    have hig' : igualSinCaso (c :: cs.takeWhile esPalabra) k = false := by simpa using hig
    simp [reemplazarSiCoincide, hig']

theorem reemplazarPalabrasAux_palabra (k r : Texto) (t : Texto) :
    ∀ actual : Texto,
      reemplazarPalabrasAux k r actual t =
        reemplazarSiCoincide k r (actual.reverse ++ t.takeWhile esPalabra) ++
          (match t.dropWhile esPalabra with
            | [] => []
            | d :: ds => d :: reemplazarPalabrasAux k r [] ds) := by
  induction t with
  | nil => intro actual; simp [reemplazarPalabrasAux]
  | cons c cs ih =>
    intro actual
    by_cases hc : esPalabra c = true
    · rw [reemplazarPalabrasAux, if_pos hc, ih]
      simp [List.takeWhile_cons, List.dropWhile_cons, hc]
    · rw [reemplazarPalabrasAux, if_neg hc]
      simp [List.takeWhile_cons, List.dropWhile_cons, hc]

theorem reemplazarSiCoincide_vacio (k r : Texto) (hk : esPatronMinusculas k) :
    reemplazarSiCoincide k r [] = [] := by
  obtain ⟨p, ps, rfl⟩ := List.exists_cons_of_ne_nil hk.1
  simp [reemplazarSiCoincide, igualSinCaso]

theorem replaceAux_eq_reemplazarPalabrasAux (k r : Texto) (hk : esPatronMinusculas k)
    (hr : '$' ∉ r) :
    ∀ (n : Nat) (t prev : Texto), t.length ≤ n → esPalabraOpt prev.head? = false →
      replaceAux k r 0 prev t = reemplazarPalabrasAux k r [] t := by
  intro n
  induction n with
  | zero =>
    intro t prev ht _
    have : t = [] := List.length_eq_zero.mp (Nat.le_zero.mp ht)
    subst this
    simp [replaceAux, reemplazarPalabrasAux, reemplazarSiCoincide_vacio k r hk]
  | succ n ih =>
    intro t prev ht hprev
    cases t with
    | nil => simp [replaceAux, reemplazarPalabrasAux, reemplazarSiCoincide_vacio k r hk]
    | cons c cs =>
      have hcs : cs.length ≤ n := by simpa using ht
      by_cases hc : esPalabra c = true
      · rw [replaceAux_inicio_palabra k r hk hr prev c cs hprev hc,
          reemplazarPalabrasAux_palabra k r (c :: cs) []]
        simp only [List.reverse_nil, List.nil_append, List.takeWhile_cons, hc, if_true,
          List.dropWhile_cons]
        congr 1
        have hd := esPalabraOpt_head_dropWhile cs
        have hlen : (cs.dropWhile esPalabra).length ≤ cs.length := by
          have := congrArg List.length (List.takeWhile_append_dropWhile esPalabra cs)
          rw [List.length_append] at this
          omega
        generalize cs.dropWhile esPalabra = resto at hd hlen ⊢
        cases resto with
        | nil => simp [replaceAux]
        | cons d ds =>
          have hdW : esPalabra d = false := by simpa [esPalabraOpt] using hd
          rw [replaceAux, coincideEn_no_palabra k hk _ d ds hdW]
          simp only [Bool.false_eq_true, if_false, List.cons.injEq, true_and]
          apply ih
          · simp at hlen; omega
          · simpa [esPalabraOpt] using hdW
      · have hcW : esPalabra c = false := by simpa using hc
        rw [replaceAux, coincideEn_no_palabra k hk _ c cs hcW, reemplazarPalabrasAux, if_neg hc,
          List.reverse_nil, reemplazarSiCoincide_vacio k r hk]
        simp only [Bool.false_eq_true, if_false, List.nil_append, List.cons.injEq, true_and]
        exact ih cs (c :: prev) hcs (by simpa [esPalabraOpt] using hcW)

theorem replace_eq_reemplazarPalabras (k r t : Texto) (hk : esPatronMinusculas k)
    (hr : '$' ∉ r) : replace k r t = reemplazarPalabras k r t :=
  replaceAux_eq_reemplazarPalabrasAux k r hk hr t.length t [] (le_refl _) rfl

theorem claves_son_patrones : ∀ k ∈ clavesCorrecciones, esPatronMinusculas k := by
  intro k hk
  simp only [clavesCorrecciones, correcciones, List.map_cons, List.map_nil, List.mem_cons,
    List.mem_singleton, List.not_mem_nil, or_false] at hk
  rcases hk with rfl | rfl | rfl | rfl | rfl | rfl | rfl | rfl <;>
    exact ⟨by decide, by decide⟩

/-! ## Acceptance of a prediction, and the correction table -/

theorem lastIndexOfEspacio_none (b : Texto) (h : ' ' ∉ b) : lastIndexOfEspacio b = none := by
  induction b with
  | nil => rfl
  | cons c cs ih =>
    have hc : c ≠ ' ' := fun hc => h (by simp [hc])
    have := ih (fun hm => h (List.mem_cons_of_mem _ hm))
    simp [lastIndexOfEspacio, this, hc]

theorem lastIndexOfEspacio_some (a b : Texto) (h : ' ' ∉ b) :
    lastIndexOfEspacio (a ++ ' ' :: b) = some a.length := by
  induction a with
  | nil => simp [lastIndexOfEspacio, lastIndexOfEspacio_none b h]
  | cons c cs ih => simp [lastIndexOfEspacio, ih]

theorem nuevoTexto_sin_espacio (t : Texto) (s : Sugerencia)
    (hs : s.tipo ≠ some Tipo.correccion) (h : ' ' ∉ t) :
    nuevoTexto t s = comoCadena s.texto ++ [' '] := by
  unfold nuevoTexto
  rw [if_neg (fun hc => hs hc.1), lastIndexOfEspacio_none t h]

theorem nuevoTexto_tras_espacio (a b : Texto) (s : Sugerencia)
    (hs : s.tipo ≠ some Tipo.correccion) (h : ' ' ∉ b) :
    nuevoTexto (a ++ ' ' :: b) s = a ++ ' ' :: (comoCadena s.texto ++ [' ']) := by
  unfold nuevoTexto
  rw [if_neg (fun hc => hs hc.1), lastIndexOfEspacio_some a b h]
  simp [List.take_append_eq_append_take]

theorem verificarCorrecciones_fuera_de_heredadas (ultima anterior : Texto)
    (h1 : ultima ∉ propiedadesHeredadas) (h2 : anterior ∉ propiedadesHeredadas) :
    verificarCorrecciones ultima anterior =
      match correcciones.lookup ultima with
      | some e => some ⟨some e.texto, some e.confianza, some e.tipo, some ultima, some iconoCorreccion⟩
      | none =>
          match correcciones.lookup anterior with
          | some e =>
              if anterior ≠ [] then
                some ⟨some e.texto, some e.confianza, some e.tipo, some anterior, some iconoCorreccion⟩
              else none
          | none => none := by
  unfold verificarCorrecciones leerCorreccion
  cases hu : correcciones.lookup ultima with
  | some e => simp [correccionDesde]
  | none =>
    cases ha : correcciones.lookup anterior with
    | some e => simp [correccionDesde, h1]
    | none => simp [correccionDesde, h1, h2]

/-- What the replacement of a correction computes: for a suggestion of kind correction
whose `palabraOriginal` is a key of the table and whose text has no dollar sign, the new
text is the one in which every maximal run of `[A-Za-z0-9_]` equal to the key, ASCII case
ignored, is replaced by the text of the suggestion. -/
theorem aplicarSugerencia_correccion_ascii (e : EstadoApp) (s : Sugerencia) (k : Texto)
    (htipo : s.tipo = some Tipo.correccion) (horig : s.palabraOriginal = some k)
    (hk : k ∈ clavesCorrecciones) (hdolar : '$' ∉ comoCadena s.texto) :
    (aplicarSugerencia e s).1.textoActual =
      reemplazarPalabras k (comoCadena s.texto) e.textoActual := by
  have hp := claves_son_patrones k hk
  show nuevoTexto e.textoActual s = _
  unfold nuevoTexto
  rw [if_pos ⟨htipo, by simpa [horig] using hp.1⟩]
  simp only [horig, Option.getD_some]
  exact replace_eq_reemplazarPalabras k _ _ hp hdolar

/-- The example of the specification, in mixed case: every whole word `estas` is
replaced. -/
theorem aplicarSugerencia_correccion_ejemplo :
    (aplicarSugerencia
        ⟨.general, "estas bien Estas mal ESTAS".toList, [], metricasIniciales, true, 26,
          ⟨5, 0, 0⟩⟩
        ⟨some "estés".toList, some 0.95, some .correccion, some "estas".toList,
          some "✓".toList⟩).1.textoActual = "estés bien estés mal estés".toList := by
  decide


/-! ## Keystroke savings score, word counter and event handlers -/

/-- Values of `Math.round`: halves go up, also below zero. -/
theorem mathRound_valores :
    mathRound (5 / 2) = 3 ∧ mathRound (7 / 5) = 1 ∧ mathRound (-1 / 2) = 0 ∧
    mathRound (-3 / 2) = -1 ∧ redondearDecima (300 / 7) = 429 / 10 := by
  refine ⟨?_, ?_, ?_, ?_, ?_⟩ <;>
    simp only [mathRound, redondearDecima] <;>
    norm_num [Int.floor_eq_iff]

theorem mathRound_entero (n : ℤ) : mathRound (n : ℚ) = n := by
  unfold mathRound
  rw [Int.floor_eq_iff]
  constructor <;> linarith

theorem redondearDecima_decimas (n : ℤ) : redondearDecima ((n : ℚ) / 10) = (n : ℚ) / 10 := by
  unfold redondearDecima
  rw [div_mul_cancel₀ _ (by norm_num : (10 : ℚ) ≠ 0), mathRound_entero]

/-- In the exact arithmetic of the embedding, the KSS for a positive word count is the
ratio of the counters times 100, rounded to one decimal; it depends on neither the
previous metrics nor the draws. -/
theorem kss_con_palabras (m : Metricas) (est : Estadisticas) (azar : Nat → ℚ)
    (h : 0 < est.palabrasEscritas) :
    (actualizarMetricasEnTiempoReal m est azar).1.kss =
      redondearDecima ((est.sugerenciasAceptadas : ℚ) / (est.palabrasEscritas : ℚ) * 100) := by
  simp only [actualizarMetricasEnTiempoReal, gt_iff_lt, h, if_true]
  rw [redondearDecima_decimas]
  rfl

/-- For a word count of zero the KSS is the previous value with its perturbation, clamped
to [30, 50] and rounded to one decimal. -/
theorem kss_sin_palabras (m : Metricas) (est : Estadisticas) (azar : Nat → ℚ)
    (h : est.palabrasEscritas = 0) :
    (actualizarMetricasEnTiempoReal m est azar).1.kss =
      redondearDecima (max 30 (min 50 (m.kss + variacion (azar 2)))) := by
  simp [actualizarMetricasEnTiempoReal, h]

theorem splitAux_cuenta (t : Texto) :
    (∀ actual : Texto,
      ((splitAux false actual t).filter (fun p => decide (p.length > 0))).length =
        if actual = [] then contarTokens false t else 1 + contarTokens true t) ∧
    ((splitAux true [] t).filter (fun p => decide (p.length > 0))).length =
      contarTokens false t := by
  induction t with
  | nil =>
    refine ⟨fun actual => ?_, by simp [splitAux, contarTokens]⟩
    cases actual <;> simp [splitAux, contarTokens]
  | cons c cs ih =>
    obtain ⟨ih1, ih2⟩ := ih
    by_cases hc : esEspacio c = true
    · refine ⟨fun actual => ?_, ?_⟩
      · cases actual with
        | nil => simp [splitAux, contarTokens, hc, ih2]
        | cons a as => simp [splitAux, contarTokens, hc, ih2, Nat.add_comm]
      · simp [splitAux, contarTokens, hc, ih2]
    · refine ⟨fun actual => ?_, ?_⟩
      · cases actual with
        | nil => simp [splitAux, contarTokens, hc, ih1]
        | cons a as => simp [splitAux, contarTokens, hc, ih1]
      · simp [splitAux, contarTokens, hc, ih1]

theorem contarTokens_dropWhile (t : Texto) :
    contarTokens false (t.dropWhile esEspacio) = contarTokens false t := by
  induction t with
  | nil => rfl
  | cons c cs ih =>
    by_cases hc : esEspacio c = true
    · simp [List.dropWhile_cons, hc, contarTokens, ih]
    · simp [List.dropWhile_cons, hc]

theorem contarTokens_concat_espacio (t : Texto) (x : Char) (hx : esEspacio x = true) :
    ∀ b, contarTokens b (t ++ [x]) = contarTokens b t := by
  induction t with
  | nil => intro b; simp [contarTokens, hx]
  | cons c cs ih => intro b; simp [contarTokens, ih]

theorem contarTokens_rdropWhile (t : Texto) (b : Bool) :
    contarTokens b (t.reverse.dropWhile esEspacio).reverse = contarTokens b t := by
  induction t using List.reverseRecOn with
  | nil => rfl
  | append_singleton l x ih =>
    by_cases hx : esEspacio x = true
    · simp [List.dropWhile_cons, hx, ih, contarTokens_concat_espacio l x hx]
    · simp [List.dropWhile_cons, hx]

theorem contarPalabras_eq_numeroDeTokens (t : Texto) : contarPalabras t = numeroDeTokens t := by
  unfold contarPalabras numeroDeTokens split
  rw [(splitAux_cuenta (trim t)).1 [], if_pos rfl]
  unfold trim
  rw [contarTokens_rdropWhile, contarTokens_dropWhile]

theorem contarTokens_pos (t : Texto) (h : ∃ c ∈ t, esEspacio c = false) :
    0 < contarTokens false t := by
  induction t with
  | nil => simp at h
  | cons c cs ih =>
    by_cases hc : esEspacio c = true
    · simp only [contarTokens, hc, if_true]
      apply ih
      obtain ⟨x, hx, hxe⟩ := h
      rcases List.mem_cons.mp hx with rfl | hx
      · rw [hc] at hxe; cases hxe
      · exact ⟨x, hx, hxe⟩
    · simp [contarTokens, hc]

theorem numeroDeTokens_pos (t : Texto) (h : (trim t).isEmpty = false) : 0 < numeroDeTokens t := by
  apply contarTokens_pos
  by_contra hne
  push_neg at hne
  have : trim t = [] := trim_blanco t (fun c hc => by simpa using hne c hc)
  simp [this] at h

theorem procesar_conserva (e : EstadoApp) (azar : Nat → ℚ) :
    (procesarTextoParaSugerencias e azar).1.textoActual = e.textoActual ∧
    (procesarTextoParaSugerencias e azar).1.estadisticas = e.estadisticas := by
  unfold procesarTextoParaSugerencias
  split_ifs <;> exact ⟨rfl, rfl⟩

theorem contadorAlDia_procesar (e : EstadoApp) (azar : Nat → ℚ) (h : contadorAlDia e) :
    contadorAlDia (procesarTextoParaSugerencias e azar).1 := by
  unfold contadorAlDia
  rw [(procesar_conserva e azar).1, (procesar_conserva e azar).2]
  exact h

theorem contadorAlDia_actualizar (e : EstadoApp) :
    contadorAlDia (actualizarContadorPalabras e) := rfl

theorem contadorAlDia_manejar (estado : EstadoApp × (Nat → ℚ)) (ev : Evento)
    (h : contadorAlDia estado.1) : contadorAlDia (manejar estado ev).1 := by
  obtain ⟨e, azar⟩ := estado
  cases ev with
  | cambioTexto valor => exact contadorAlDia_actualizar _
  | teclaLiberada pos key =>
    simp only [manejar, manejarTeclaLiberada]
    split_ifs
    · exact contadorAlDia_procesar _ _ h
    · exact h
    · exact h
  | cambioCursor activo pos =>
    simp only [manejar, manejarCambioCursor]
    split_ifs
    · exact h
    · exact h
  | cambioContexto valor =>
    simp only [manejar, manejarCambioContexto]
    split_ifs
    · exact contadorAlDia_procesar _ _ h
    · exact h
  | toggleAutoSugerencias checked =>
    simp only [manejar, manejarToggleAutoSugerencias]
    split_ifs <;> first | exact h | exact contadorAlDia_procesar _ _ h
  | sugerenciasManual => exact h
  | clicSugerencia s => rfl
  | limpiar ahora => exact (by decide : (0 : Nat) = contarPalabras [])
  | modoDemo =>
    simp only [manejar, activarModoDemo]
    split_ifs
    · exact contadorAlDia_procesar _ _ (contadorAlDia_actualizar _)
    · exact contadorAlDia_actualizar _
  | casoDemo texto contexto => exact contadorAlDia_actualizar _
  | timer condicional =>
    simp only [manejar, temporizador]
    split_ifs
    · exact contadorAlDia_procesar _ _ h
    · exact h
    · exact contadorAlDia_procesar _ _ h

theorem contadorAlDia_foldl (eventos : List Evento) :
    ∀ estado : EstadoApp × (Nat → ℚ), contadorAlDia estado.1 →
      contadorAlDia (eventos.foldl manejar estado).1 := by
  induction eventos with
  | nil => intro estado h; exact h
  | cons ev resto ih =>
    intro estado h
    exact ih (manejar estado ev) (contadorAlDia_manejar estado ev h)

theorem contadorAlDia_ejecutar (ahora : Nat) (azar : Nat → ℚ) (eventos : List Evento) :
    contadorAlDia (ejecutar ahora azar eventos).1 :=
  contadorAlDia_foldl eventos _ (by decide : (0 : Nat) = contarPalabras [])

theorem procesar_metricas (e : EstadoApp) (azar : Nat → ℚ)
    (h : (trim e.textoActual).isEmpty = false) :
    (procesarTextoParaSugerencias e azar).1.metricas =
      (actualizarMetricasEnTiempoReal e.metricas e.estadisticas
        (sugerirColombianismos (split (toLowerCase e.textoActual)) e.contextoActual azar).2).1 := by
  unfold procesarTextoParaSugerencias
  rw [if_neg (by simp [h])]

/-! ## The claims -/

/-- C1: for a text that is empty or made of white space only, whatever the context, the
counters and the draws, `procesarTextoParaSugerencias` leaves the state as it was except
that the active suggestion list is empty: no correction, prediction or dialect step
runs, the metrics are not stepped and no draw is read. -/
theorem procesar_texto_en_blanco (e : EstadoApp) (azar : Nat → ℚ)
    (h : ∀ c ∈ e.textoActual, esEspacio c = true) :
    procesarTextoParaSugerencias e azar = ({ e with sugerenciasActivas := [] }, azar) := by
  simp [procesarTextoParaSugerencias, trim_blanco _ h, limpiarSugerencias]

/-- Witness of C1: the text of a blank, a tab and a line feed, with two suggestions
active before. -/
theorem procesar_texto_en_blanco_witness :
    (∀ c ∈ " \t\n".toList, esEspacio c = true) ∧
    procesarTextoParaSugerencias
        ⟨.informal, " \t\n".toList, prediccionesMuy, metricasIniciales, true, 3, ⟨0, 0, 0⟩⟩
        (fun _ => 0) =
      (⟨.informal, " \t\n".toList, [], metricasIniciales, true, 3, ⟨0, 0, 0⟩⟩, fun _ => 0) :=
  ⟨by decide, procesar_texto_en_blanco _ _ (by decide)⟩

/-- C2, at the token `constructor`: it is not a key of the misspelling table, yet the
property read finds `Object.prototype.constructor`, so `verificarCorrecciones` returns a
correction object, without text, confidence or kind; for the text `constructor` that
object is the active suggestion list. -/
theorem verificarCorrecciones_propiedad_heredada :
    "constructor".toList ∉ clavesCorrecciones ∧
    verificarCorrecciones "constructor".toList [] =
      some ⟨none, none, none, some "constructor".toList, some iconoCorreccion⟩ ∧
    (procesarTextoParaSugerencias
        ⟨.general, "constructor".toList, [], metricasIniciales, true, 11, ⟨1, 0, 0⟩⟩
        (fun _ => 0)).1.sugerenciasActivas =
      [⟨none, none, none, some "constructor".toList, some iconoCorreccion⟩] := by
  refine ⟨by decide, rfl, ?_⟩
  have h1 : split (toLowerCase "constructor".toList) = ["constructor".toList] := by decide
  have h2 : (trim "constructor".toList).isEmpty = false := by decide
  have h3 : verificarCorrecciones "constructor".toList [] =
      some ⟨none, none, none, some "constructor".toList, some iconoCorreccion⟩ := rfl
  have h4 : generarPredicciones ["constructor".toList] .general = [] := by decide
  have h5 : (sugerirColombianismos ["constructor".toList] .general (fun _ => 0)).1 = [] := by
    decide
  simp only [procesarTextoParaSugerencias, h2, h1, ultimoDe]
  simp only [List.getLast?, List.length_singleton, lt_irrefl, if_false, Option.getD, h3, h4, h5]
  rfl

/-- C3 fails at the text `muy` with the informal context (every draw 0): the ranked
suggestion list holds the three predictions of the informal table and the two
colombianismos, and no suggestion with the text `bueno` or `interesante`. -/
theorem muy_informal_sin_bueno :
    (procesarTextoParaSugerencias
        ⟨.informal, "muy".toList, [], metricasIniciales, true, 3, ⟨1, 0, 0⟩⟩
        (fun _ => 0)).1.sugerenciasActivas.map (fun s => (s.texto, s.tipo)) =
      [(some "chévere".toList, some Tipo.prediccion),
       (some "bacano".toList, some Tipo.prediccion),
       (some "genial".toList, some Tipo.prediccion),
       (some "bacano".toList, some Tipo.colombianismo),
       (some "chévere".toList, some Tipo.colombianismo)] := by
  have h1 : split (toLowerCase "muy".toList) = ["muy".toList] := by decide
  have h2 : (trim "muy".toList).isEmpty = false := by decide
  have h3 : verificarCorrecciones ['m', 'u', 'y'] [] = none := rfl
  simp only [procesarTextoParaSugerencias, h2, h1, ultimoDe]
  simp only [List.getLast?, List.length_singleton, lt_irrefl, if_false, Option.getD,
    generarPredicciones_informal, sugerirColombianismos_muy_informal_eval]
  simp [mostrarSugerencias, sort, insertarOrdenado, compararConfianza, colombianismoAleatorio, h3]
  norm_num [insertarOrdenado, compararConfianza]

/-- C3 as amended: for every token list whose last token is `muy`, with the informal
context the predictions are exactly the three entries of the informal table, which fill
the cap of three, so `bueno` and `interesante` are not returned; with the general context
the predictions begin with `bueno` (0.78) and `interesante` (0.71). -/
theorem predicciones_con_muy (palabras : List Texto)
    (h : palabras.getLast? = some "muy".toList) :
    generarPredicciones palabras .informal =
      [⟨some "chévere".toList, some 0.88, some .prediccion, none, some iconoPrediccion⟩,
       ⟨some "bacano".toList, some 0.82, some .prediccion, none, some iconoPrediccion⟩,
       ⟨some "genial".toList, some 0.75, some .prediccion, none, some iconoPrediccion⟩] ∧
    (generarPredicciones palabras .general).take 2 =
      [⟨some "bueno".toList, some 0.78, some .prediccion, none, some iconoPrediccion⟩,
       ⟨some "interesante".toList, some 0.71, some .prediccion, none, some iconoPrediccion⟩] :=
  ⟨generarPredicciones_informal palabras, generarPredicciones_general_muy palabras h⟩

/-- Witness of the amended C3: the tokens of `es muy`. -/
theorem predicciones_con_muy_witness :
    ["es".toList, "muy".toList].getLast? = some "muy".toList ∧
    generarPredicciones ["es".toList, "muy".toList] .informal =
      [⟨some "chévere".toList, some 0.88, some .prediccion, none, some iconoPrediccion⟩,
       ⟨some "bacano".toList, some 0.82, some .prediccion, none, some iconoPrediccion⟩,
       ⟨some "genial".toList, some 0.75, some .prediccion, none, some iconoPrediccion⟩] ∧
    (generarPredicciones ["es".toList, "muy".toList] .general).take 2 =
      [⟨some "bueno".toList, some 0.78, some .prediccion, none, some iconoPrediccion⟩,
       ⟨some "interesante".toList, some 0.71, some .prediccion, none, some iconoPrediccion⟩] :=
  ⟨rfl, predicciones_con_muy ["es".toList, "muy".toList] rfl⟩

/-- C4 fails at the single token `MUY` with the general context: the text of the trailing
tokens, `MUY`, does not contain `muy`, so the assembly read to the letter is empty, while
`generarPredicciones` lower-cases that text and returns `bueno` and `interesante`. -/
theorem generarPredicciones_mayusculas :
    includes (join (sliceUltimos 3 ["MUY".toList])) "muy".toList = false ∧
    (ensamblado ["MUY".toList] .general).take 3 = [] ∧
    generarPredicciones ["MUY".toList] .general =
      [⟨some "bueno".toList, some 0.78, some .prediccion, none, some "→".toList⟩,
       ⟨some "interesante".toList, some 0.71, some .prediccion, none, some "→".toList⟩] := by
  refine ⟨by decide, by decide, ?_⟩
  rw [generarPredicciones_eq]
  have h1 : includes (toLowerCase (join (sliceUltimos 3 ["MUY".toList]))) "muy".toList = true := by
    decide
  have h2 : includes (toLowerCase (join (sliceUltimos 3 ["MUY".toList])))
      "película estuvo".toList = false := by decide
  unfold ensambladoDe
  rw [h1, h2]
  rfl

/-- C4 as amended: for every token list and every context, `generarPredicciones` returns
the first three elements (all of them when fewer) of the assembly taken on the
lower-cased text of the last three tokens joined by single spaces: the entries of the
context table, in table order, when the context is not general, then `bueno` 0.78 and
`interesante` 0.71 when that text contains `muy`, then `chévere` 0.85 and `bacana` 0.79
when it contains `película estuvo`. Hence there are never more than three predictions,
and the cut follows the order of assembly, not the confidence. -/
theorem generarPredicciones_primeros_tres (palabras : List Texto) (contexto : Contexto) :
    generarPredicciones palabras contexto = (ensambladoMinusculas palabras contexto).take 3 ∧
    (generarPredicciones palabras contexto).length ≤ 3 := by
  rw [generarPredicciones_eq]
  exact ⟨rfl, by simp⟩

/-- An instance of the cut in assembly order: for the tokens of `la película estuvo muy`
with the formal context, `bueno` (0.78) is returned and `chévere` (0.85), assembled
after it, is cut. -/
theorem generarPredicciones_corte_en_orden :
    generarPredicciones ["la".toList, "película".toList, "estuvo".toList, "muy".toList]
        .formal =
      [⟨some "cordialmente".toList, some 0.91, some .completado, none, some "→".toList⟩,
       ⟨some "atentamente".toList, some 0.87, some .completado, none, some "→".toList⟩,
       ⟨some "bueno".toList, some 0.78, some .prediccion, none, some "→".toList⟩] := by
  rw [generarPredicciones_eq]
  have h1 : includes (toLowerCase (join (sliceUltimos 3
      ["la".toList, "película".toList, "estuvo".toList, "muy".toList]))) "muy".toList = true := by
    decide
  have h2 : includes (toLowerCase (join (sliceUltimos 3
      ["la".toList, "película".toList, "estuvo".toList, "muy".toList])))
      "película estuvo".toList = true := by
    decide
  unfold ensambladoDe
  rw [h1, h2]
  rfl

/-- C5: with the formal or the academic context `sugerirColombianismos` returns the
empty list for every token list, and reads no draw. -/
theorem sugerirColombianismos_formal_vacio (palabras : List Texto) (azar : Nat → ℚ) :
    sugerirColombianismos palabras .formal azar = ([], azar) ∧
    sugerirColombianismos palabras .academico azar = ([], azar) := by
  simp [sugerirColombianismos]

/-- C6: for every token list whose last token is `muy`, with the informal context and
two draws in [0,1), the list returned by `sugerirColombianismos` ends with the
suggestions `bacano` and `chévere`, in this order, of confidence 0.70 + 0.15 r1 and
0.70 + 0.15 r2, and both confidences lie in [0.70, 0.85). -/
theorem colombianismos_muy_informal (palabras : List Texto) (azar : Nat → ℚ)
    (h : palabras.getLast? = some "muy".toList)
    (h1 : 0 ≤ azar 0 ∧ azar 0 < 1) (h2 : 0 ≤ azar 1 ∧ azar 1 < 1) :
    [(⟨some "bacano".toList, some (0.70 + azar 0 * 0.15), some .colombianismo, none,
        some iconoColombia⟩ : Sugerencia),
      ⟨some "chévere".toList, some (0.70 + azar 1 * 0.15), some .colombianismo, none,
        some iconoColombia⟩] <:+ (sugerirColombianismos palabras .informal azar).1 ∧
    (0.70 ≤ 0.70 + azar 0 * 0.15 ∧ 0.70 + azar 0 * 0.15 < (0.85 : ℚ)) ∧
    (0.70 ≤ 0.70 + azar 1 * 0.15 ∧ 0.70 + azar 1 * 0.15 < (0.85 : ℚ)) := by
  rw [sugerirColombianismos_informal_muy_eq palabras azar h]
  refine ⟨⟨_, rfl⟩, ⟨?_, ?_⟩, ⟨?_, ?_⟩⟩ <;> norm_num <;> linarith [h1.1, h1.2, h2.1, h2.2]

/-- Witness of C6: the tokens of `hola muy` and the draws 1/4 and 3/4. -/
theorem colombianismos_muy_informal_witness :
    ["hola".toList, "muy".toList].getLast? = some "muy".toList ∧
    (0 ≤ (1 / 4 : ℚ) ∧ (1 / 4 : ℚ) < 1) ∧ (0 ≤ (3 / 4 : ℚ) ∧ (3 / 4 : ℚ) < 1) ∧
    [(⟨some "bacano".toList, some (0.70 + 1 / 4 * 0.15), some .colombianismo, none,
        some iconoColombia⟩ : Sugerencia),
      ⟨some "chévere".toList, some (0.70 + 3 / 4 * 0.15), some .colombianismo, none,
        some iconoColombia⟩] <:+
      (sugerirColombianismos ["hola".toList, "muy".toList] .informal
        (fun n => if n = 0 then 1 / 4 else 3 / 4)).1 :=
  ⟨rfl, by norm_num, by norm_num,
    (colombianismos_muy_informal ["hola".toList, "muy".toList]
      (fun n => if n = 0 then 1 / 4 else 3 / 4) rfl (by norm_num) (by norm_num)).1⟩

/-- C7: for every list of suggestions with numeric confidences the ranking of
`mostrarSugerencias` returns a permutation of the list, in which each suggestion is at
least as confident as the next one, and in which the suggestions of any one confidence
stand in their order of insertion. -/
theorem mostrarSugerencias_ordena (l : List Sugerencia) (h : ∀ s ∈ l, s.confianza ≠ none) :
    (mostrarSugerencias l).Perm l ∧
    (mostrarSugerencias l).Chain' noMenosConfiable ∧
    ∀ c : ℚ, (mostrarSugerencias l).filter (fun s => decide (s.confianza = some c)) =
      l.filter (fun s => decide (s.confianza = some c)) := by
  rw [mostrarSugerencias_eq_sort]
  exact ⟨sort_perm l, (sort_ordenada l h).chain', fun c => sort_filter c l⟩

/-- Witness of C7: three suggestions, two of them of confidence 0.75. -/
theorem mostrarSugerencias_ordena_witness :
    (∀ s ∈ sugerenciasEjemplo, s.confianza ≠ none) ∧
    (mostrarSugerencias sugerenciasEjemplo).Perm sugerenciasEjemplo ∧
    (mostrarSugerencias sugerenciasEjemplo).Chain' noMenosConfiable ∧
    ∀ c : ℚ,
      (mostrarSugerencias sugerenciasEjemplo).filter (fun s => decide (s.confianza = some c)) =
        sugerenciasEjemplo.filter (fun s => decide (s.confianza = some c)) :=
  ⟨by simp [sugerenciasEjemplo],
    mostrarSugerencias_ordena sugerenciasEjemplo (by simp [sugerenciasEjemplo])⟩

/-- C8, at the text `el masón pide mas`: its last token `mas` draws the correction of
the table, and accepting it replaces the whole word `mas` and also the letters `mas` of
the word `masón`, because the `\b` of the pattern takes `ó` for a word boundary. The
replacement of whole words that the specification asks leaves `masón` as it is. -/
theorem aplicarSugerencia_corrige_dentro_de_palabra :
    verificarCorrecciones "mas".toList "pide".toList =
      some ⟨some "más".toList, some 0.94, some .correccion, some "mas".toList,
        some "✓".toList⟩ ∧
    (aplicarSugerencia
        ⟨.general, "el masón pide mas".toList, [], metricasIniciales, true, 17, ⟨4, 0, 0⟩⟩
        ⟨some "más".toList, some 0.94, some .correccion, some "mas".toList,
          some "✓".toList⟩).1.textoActual = "el másón pide más".toList ∧
    reemplazarPalabrasEnteras "mas".toList "más".toList "el masón pide mas".toList =
      "el masón pide más".toList := by
  refine ⟨rfl, by decide, by decide⟩

/-- C9, at the text of the two lines `hola` and `muy`: the text has no U+0020, so
accepting the prediction `bueno` stores `bueno ` alone; the first line and the line
break, which stand before the trailing word, are lost. -/
theorem aplicarSugerencia_pierde_linea :
    lastIndexOfEspacio "hola\nmuy".toList = none ∧
    aplicarSugerencia
        ⟨.general, "hola\nmuy".toList, [], metricasIniciales, true, 8, ⟨2, 0, 0⟩⟩
        ⟨some "bueno".toList, some 0.78, some .prediccion, none, some iconoPrediccion⟩ =
      (⟨.general, "bueno ".toList, [], metricasIniciales, true, 8, ⟨1, 1, 0⟩⟩, 6) := by
  decide

/-- C10: whatever the previous metrics, the counters and the draws, the metrics that
`actualizarMetricasEnTiempoReal` produces, after the final rounding, satisfy
75 ≤ precision ≤ 95, 100 ≤ latency ≤ 200 and 70 ≤ acceptance ≤ 90. -/
theorem metricas_en_rango (m : Metricas) (est : Estadisticas) (azar : Nat → ℚ) :
    75 ≤ (actualizarMetricasEnTiempoReal m est azar).1.precision ∧
    (actualizarMetricasEnTiempoReal m est azar).1.precision ≤ 95 ∧
    100 ≤ (actualizarMetricasEnTiempoReal m est azar).1.latencia ∧
    (actualizarMetricasEnTiempoReal m est azar).1.latencia ≤ 200 ∧
    70 ≤ (actualizarMetricasEnTiempoReal m est azar).1.acceptance ∧
    (actualizarMetricasEnTiempoReal m est azar).1.acceptance ≤ 90 := by
  have bp := acotado_entre 75 95 (m.precision + variacion (azar 0)) (by norm_num)
  have bl := acotado_entre 100 200 (m.latencia + variacion (azar 1) * 5) (by norm_num)
  have ba := acotado_entre 70 90 (m.acceptance + variacion (azar 3)) (by norm_num)
  have hp := redondearDecima_entre _ 75 95 bp.1 bp.2
  have hl := mathRound_entre _ 100 200 bl.1 bl.2
  have ha := redondearDecima_entre _ 70 90 ba.1 ba.2
  have hl1 : ((100 : ℤ) : ℚ) ≤ _ := Int.cast_le.mpr hl.1
  have hl2 : _ ≤ ((200 : ℤ) : ℚ) := Int.cast_le.mpr hl.2
  simp only [actualizarMetricasEnTiempoReal]
  push_cast at hp hl1 hl2 ha
  exact ⟨hp.1, hp.2, hl1, hl2, ha.1, ha.2⟩

/-- C12: in every state reached from the initial state by the handlers of the program,
`palabrasEscritas` is the number of non-empty tokens of `textoActual` delimited by white
space. Hence, whenever `procesarTextoParaSugerencias` finds a text that is not blank,
`palabrasEscritas > 0` and the KSS it stores is `sugerenciasAceptadas / palabrasEscritas
* 100` rounded to one decimal (in the exact arithmetic of the embedding), not the clamped
random walk. -/
theorem contador_de_palabras_al_dia (ahora : Nat) (azar : Nat → ℚ) (eventos : List Evento)
    (azarProceso : Nat → ℚ) :
    (ejecutar ahora azar eventos).1.estadisticas.palabrasEscritas =
      numeroDeTokens (ejecutar ahora azar eventos).1.textoActual ∧
    ((trim (ejecutar ahora azar eventos).1.textoActual).isEmpty = false →
      0 < (ejecutar ahora azar eventos).1.estadisticas.palabrasEscritas ∧
      (procesarTextoParaSugerencias (ejecutar ahora azar eventos).1 azarProceso).1.metricas.kss =
        redondearDecima
          (((ejecutar ahora azar eventos).1.estadisticas.sugerenciasAceptadas : ℚ) /
            ((ejecutar ahora azar eventos).1.estadisticas.palabrasEscritas : ℚ) * 100)) := by
  have hinv : (ejecutar ahora azar eventos).1.estadisticas.palabrasEscritas =
      numeroDeTokens (ejecutar ahora azar eventos).1.textoActual :=
    (contadorAlDia_ejecutar ahora azar eventos).trans (contarPalabras_eq_numeroDeTokens _)
  refine ⟨hinv, fun h => ?_⟩
  have hpos : 0 < (ejecutar ahora azar eventos).1.estadisticas.palabrasEscritas := by
    rw [hinv]; exact numeroDeTokens_pos _ h
  exact ⟨hpos, by rw [procesar_metricas _ _ h]; exact kss_con_palabras _ _ _ hpos⟩

/-- Witness of C12: the text `hola muy` is typed and the prediction `bueno` is accepted;
the text is then `hola bueno `, of two words. -/
theorem contador_de_palabras_al_dia_witness :
    (trim (ejecutar 0 (fun _ => 0)
      [.cambioTexto "hola muy".toList,
       .clicSugerencia ⟨some "bueno".toList, some 0.78, some .prediccion, none,
         some iconoPrediccion⟩]).1.textoActual).isEmpty = false ∧
    (ejecutar 0 (fun _ => 0)
      [.cambioTexto "hola muy".toList,
       .clicSugerencia ⟨some "bueno".toList, some 0.78, some .prediccion, none,
         some iconoPrediccion⟩]).1.estadisticas.palabrasEscritas = 2 ∧
    0 < (ejecutar 0 (fun _ => 0)
      [.cambioTexto "hola muy".toList,
       .clicSugerencia ⟨some "bueno".toList, some 0.78, some .prediccion, none,
         some iconoPrediccion⟩]).1.estadisticas.palabrasEscritas :=
  ⟨by decide, by decide,
    ((contador_de_palabras_al_dia 0 (fun _ => 0)
      [.cambioTexto "hola muy".toList,
       .clicSugerencia ⟨some "bueno".toList, some 0.78, some .prediccion, none,
         some iconoPrediccion⟩] (fun _ => 0)).2 (by decide)).1⟩

end AgenteTexto
